import Mathlib

/-!
Shallow embedding of the technical-analysis signal engine (`toushi.py`) and
the regression engine (`kaiki_app.py`).

Numeric modelling conventions:
* Python floats are idealised as exact rationals (`ℚ`); the IEEE special
  values NaN and ±∞ produced by the pandas pipeline are modelled by the
  extended type `EF` below, since the NaN/∞ pattern (not rounding) is what
  the program's logic branches on.
* Index errors raised by `DataFrame.iloc` are modelled by `Except PyErr`.
-/

/-- Python exceptions that the modelled fragments can raise. -/
inductive PyErr where
  | indexError
  deriving DecidableEq, Repr

/-- An IEEE-style extended number: NaN, plus/minus infinity, or a finite
value (idealised as an exact rational).  This is the value type of the
pandas columns whose NaN/∞ pattern the program inspects. -/
inductive EF where
  | nan
  | pinf
  | ninf
  | fin (q : ℚ)
  deriving DecidableEq, Repr

namespace EF

/-- IEEE-style negation. -/
def neg : EF → EF
  | nan => nan
  | pinf => ninf
  | ninf => pinf
  | fin q => fin (-q)

/-- IEEE-style addition (NaN propagates; ∞ + (−∞) = NaN). -/
def add : EF → EF → EF
  | nan, _ => nan
  | _, nan => nan
  | pinf, ninf => nan
  | ninf, pinf => nan
  | pinf, _ => pinf
  | _, pinf => pinf
  | ninf, _ => ninf
  | _, ninf => ninf
  | fin a, fin b => fin (a + b)

/-- IEEE-style subtraction. -/
def sub (a b : EF) : EF := add a (neg b)

/-- IEEE-style multiplication (∞ · 0 = NaN). -/
def mul : EF → EF → EF
  | nan, _ => nan
  | _, nan => nan
  | pinf, pinf => pinf
  | pinf, ninf => ninf
  | ninf, pinf => ninf
  | ninf, ninf => pinf
  | pinf, fin b => if 0 < b then pinf else if b < 0 then ninf else nan
  | ninf, fin b => if 0 < b then ninf else if b < 0 then pinf else nan
  | fin a, pinf => if 0 < a then pinf else if a < 0 then ninf else nan
  | fin a, ninf => if 0 < a then ninf else if a < 0 then pinf else nan
  | fin a, fin b => fin (a * b)

/-- IEEE-style division: finite/0 follows the sign of the numerator
(0/0 = NaN), finite/∞ = 0, ∞/finite keeps the numerator's sign. -/
def div : EF → EF → EF
  | nan, _ => nan
  | _, nan => nan
  | pinf, pinf => nan
  | pinf, ninf => nan
  | ninf, pinf => nan
  | ninf, ninf => nan
  | fin _, pinf => fin 0
  | fin _, ninf => fin 0
  | pinf, fin b => if 0 ≤ b then pinf else ninf
  | ninf, fin b => if 0 ≤ b then ninf else pinf
  | fin a, fin b =>
      if b ≠ 0 then fin (a / b)
      else if 0 < a then pinf
      else if a < 0 then ninf
      else nan

/-- Model of `Series.fillna(0)`: replace NaN by 0, leave everything else (including
infinities — pandas `fillna` does not touch ±∞). -/
def fillna0 : EF → EF
  | nan => fin 0
  | x => x

/-- Is this value NaN?  (`dropna` drops exactly the NaN entries.) -/
def isNan : EF → Bool
  | nan => true
  | _ => false

end EF

/-! ## Rows of the processed tables consumed by `analyze_signals`

`analyze_signals` receives the IndicatorTable and WeeklyIndicatorTable
*after* `calculate_indicators` has dropped every row containing a NaN, so
each consumed column is a defined float, modelled as `ℚ`.  Of the weekly
table the function reads only the `MACD` column. -/

/-- One row of the processed daily IndicatorTable. -/
structure DRow where
  close : ℚ
  volume : ℚ
  sma200 : ℚ
  sma50 : ℚ
  sma20 : ℚ
  bbUpper : ℚ
  bbLower : ℚ
  rsi : ℚ
  macd : ℚ
  macdSignal : ℚ
  volumeMa20 : ℚ
  high60d : ℚ
  deriving DecidableEq, Repr

/-- One row of the processed WeeklyIndicatorTable (only `MACD` is read). -/
structure WeeklyRow where
  macd : ℚ
  deriving DecidableEq, Repr

/-- Model of `df.iloc[-k]`: the `k`-th row from the end; raises `IndexError` when
fewer than `k` rows exist (Python negative positional indexing). -/
def ilocNeg (xs : List α) (k : ℕ) : Except PyErr α :=
  if 1 ≤ k ∧ k ≤ xs.length then
    match xs.get? (xs.length - k) with
    | some v => .ok v
    | none => .error .indexError
  else .error .indexError

theorem ilocNeg_ok_of_le {α : Type} (xs : List α) (k : ℕ) (h1 : 1 ≤ k)
    (h2 : k ≤ xs.length) : ∃ v, ilocNeg xs k = .ok v := by
  unfold ilocNeg
  rw [if_pos ⟨h1, h2⟩]
  have hlt : xs.length - k < xs.length := by omega
  cases hv : xs.get? (xs.length - k) with
  | none =>
      rw [List.get?_eq_none] at hv
      omega
  | some v => exact ⟨v, rfl⟩

theorem ilocNeg_err_of_gt {α : Type} (xs : List α) (k : ℕ)
    (h : xs.length < k) : ilocNeg xs k = .error .indexError := by
  unfold ilocNeg
  rw [if_neg]
  intro hc
  omega

/-- The three-way trend classification (the source stores the Japanese
display strings "🟢 上昇…", "🔴 下降…", "🟡 …"; only their identity is
compared, so they are modelled as an enumeration). -/
inductive Trend where
  | up
  | down
  | neutral
  deriving DecidableEq, Repr

/-- Long-term trend (lines 60–65): up when close > SMA200 and the weekly
MACD is positive; down when close < SMA200; otherwise neutral. -/
def longTrendOf (latest : DRow) (latestWeekly : WeeklyRow) : Trend :=
  if latest.close > latest.sma200 ∧ latestWeekly.macd > 0 then .up
  else if latest.close < latest.sma200 then .down
  else .neutral

/-- Mid-term trend (lines 68–73).  The second conjunct `df.iloc[-10]` is
only evaluated when `close > SMA50` holds (Python `and` short-circuits),
so the row access is conditional. -/
def midTrendOf (df : List DRow) (latest : DRow) : Except PyErr Trend :=
  if latest.close > latest.sma50 then
    (ilocNeg df 10).map (fun r10 =>
      if latest.sma50 > r10.sma50 then .up
      else if latest.close < latest.sma50 then .down
      else .neutral)
  else
    .ok (if latest.close < latest.sma50 then .down else .neutral)

/-- Short-term trend (lines 76–81), analogous with SMA20 and `iloc[-5]`. -/
def shortTrendOf (df : List DRow) (latest : DRow) : Except PyErr Trend :=
  if latest.close > latest.sma20 then
    (ilocNeg df 5).map (fun r5 =>
      if latest.sma20 > r5.sma20 then .up
      else if latest.close < latest.sma20 then .down
      else .neutral)
  else
    .ok (if latest.close < latest.sma20 then .down else .neutral)

/-- Buy-signal messages appended by the evaluator (the formatted Japanese
strings are presentation; the payload carries any interpolated value). -/
inductive BuyMsg where
  | longTrendGood
  | bbLowerTouch
  | rsiPullback (rsi : ℚ)
  | goldenCross
  | volumeSurge
  deriving DecidableEq, Repr

/-- Sell/caution-signal messages appended by the evaluator. -/
inductive SellMsg where
  | longTrendBad
  | bbUpperTouch
  | rsiOverbought (rsi : ℚ)
  | deadCross
  | stopLossWarning
  deriving DecidableEq, Repr

/-- Buy-target advice entries (price levels, or the "not recommended"
notice shown when the long trend is not up). -/
inductive BuyTarget where
  | bbLowerTarget (price : ℚ)
  | sma20Target (price : ℚ)
  | sma50Target (price : ℚ)
  | notRecommended
  deriving DecidableEq, Repr

/-- Sell-target advice entries. -/
inductive SellTarget where
  | bbUpperTarget (price : ℚ)
  | high60Target (price : ℚ)
  deriving DecidableEq, Repr

/-- MACD golden cross between the previous and latest bar (line 95). -/
def goldenCross (latest previous : DRow) : Prop :=
  previous.macd < previous.macdSignal ∧ latest.macd > latest.macdSignal

instance (latest previous : DRow) : Decidable (goldenCross latest previous) := by
  unfold goldenCross
  infer_instance

/-- The score accumulated by lines 84–100: band-touch and RSI-pullback
points only inside the long-trend-up branch, golden-cross point (plus the
volume bonus) unconditionally. -/
def accScore (latest previous : DRow) (longT : Trend) : ℕ :=
  (if longT = .up then
      (if latest.close ≤ latest.bbLower then 1 else 0)
      + (if 30 ≤ latest.rsi ∧ latest.rsi ≤ 45 then 1 else 0)
    else 0)
  + (if goldenCross latest previous then
      1 + (if latest.volume > latest.volumeMa20 * (3 / 2 : ℚ) then 1 else 0)
    else 0)

/-- The buy-signal list built by lines 84–100, in append order. -/
def buyListOf (latest previous : DRow) (longT : Trend) : List BuyMsg :=
  (if longT = .up then
      [BuyMsg.longTrendGood]
      ++ (if latest.close ≤ latest.bbLower then [BuyMsg.bbLowerTouch] else [])
      ++ (if 30 ≤ latest.rsi ∧ latest.rsi ≤ 45 then [BuyMsg.rsiPullback latest.rsi] else [])
    else [])
  ++ (if goldenCross latest previous then
      [BuyMsg.goldenCross]
      ++ (if latest.volume > latest.volumeMa20 * (3 / 2 : ℚ) then [BuyMsg.volumeSurge] else [])
    else [])

/-- The sell/caution-signal list built by lines 92–110, in append order. -/
def sellListOf (latest previous : DRow) (longT : Trend) : List SellMsg :=
  (if longT = .up then [] else [SellMsg.longTrendBad])
  ++ (if latest.close ≥ latest.bbUpper then [SellMsg.bbUpperTouch] else [])
  ++ (if latest.rsi ≥ 70 then [SellMsg.rsiOverbought latest.rsi] else [])
  ++ (if previous.macd > previous.macdSignal ∧ latest.macd < latest.macdSignal
      then [SellMsg.deadCross] else [])
  ++ (if previous.close > previous.sma200 ∧ latest.close < latest.sma200
      then [SellMsg.stopLossWarning] else [])

/-- Buy-target advice (lines 114–119). -/
def buyTargetsOf (latest : DRow) (longT : Trend) : List BuyTarget :=
  if longT = .up then
    [BuyTarget.bbLowerTarget latest.bbLower,
     BuyTarget.sma20Target latest.sma20,
     BuyTarget.sma50Target latest.sma50]
  else [BuyTarget.notRecommended]

/-- Sell-target advice (lines 122–123), produced regardless of trend. -/
def sellTargetsOf (latest : DRow) : List SellTarget :=
  [SellTarget.bbUpperTarget latest.bbUpper, SellTarget.high60Target latest.high60d]

/-- Comment selection (lines 132–139). -/
def commentOf (finalScore : ℕ) (longT : Trend) : String :=
  if finalScore ≥ 3 then
    "複数の買いシグナルが点灯しており、絶好の買い場が近い可能性があります。押し目買いのチャンスを伺いましょう。"
  else if finalScore ≥ 1 then
    "長期トレンドが良好な中で、調整局面を迎えています。買いを検討できるタイミングです。"
  else if longT = .down then
    "長期トレンドが下降基調のため、積極的な買いはリスクが高いです。戻り売りに注意が必要です。"
  else
    "明確な方向性が出ていません。様子見が賢明かもしれません。"

/-- The evaluation record returned by `analyze_signals` (lines 141–148). -/
structure SignalResult where
  star_rating : String
  score : ℕ
  comment : String
  buySignals : List BuyMsg
  sellSignals : List SellMsg
  trendLong : Trend
  trendMid : Trend
  trendShort : Trend
  buyTargets : List BuyTarget
  sellTargets : List SellTarget
  deriving DecidableEq, Repr

/-- Score finalisation (lines 126–128): `min(score, 4)` when the long
trend is up, `0` otherwise. -/
def finalScoreOf (latest previous : DRow) (longT : Trend) : ℕ :=
  if longT = .up then min (accScore latest previous longT) 4 else 0

/-- Star rating (line 130): `final_score` filled stars followed by
`4 - final_score` empty ones. -/
def starRatingOf (finalScore : ℕ) : String :=
  String.mk (List.replicate finalScore '★' ++ List.replicate (4 - finalScore) '☆')

/-- The record assembled at lines 141–148 from the extracted rows and the
mid/short trend classifications. -/
def mkSignalResult (latest previous : DRow) (latestWeekly : WeeklyRow)
    (midT shortT : Trend) : SignalResult :=
  let longT := longTrendOf latest latestWeekly
  let finalScore := finalScoreOf latest previous longT
  { star_rating := starRatingOf finalScore
    score := finalScore
    comment := commentOf finalScore longT
    buySignals := buyListOf latest previous longT
    sellSignals := sellListOf latest previous longT
    trendLong := longT
    trendMid := midT
    trendShort := shortT
    buyTargets := buyTargetsOf latest longT
    sellTargets := sellTargetsOf latest }

/-- Model of `analyze_signals(df, df_weekly)` (lines 47–148).  Row accesses
`iloc[-1]`, `iloc[-2]` on the daily table and `iloc[-1]` on the weekly
table happen unconditionally up front (lines 49–51, with no length
guard); the conditional `iloc[-10]` / `iloc[-5]` accesses sit inside the
trend classification. -/
def analyze_signals (df : List DRow) (dfw : List WeeklyRow) :
    Except PyErr SignalResult := do
  let latest ← ilocNeg df 1
  let previous ← ilocNeg df 2
  let latestWeekly ← ilocNeg dfw 1
  let midT ← midTrendOf df latest
  let shortT ← shortTrendOf df latest
  pure (mkSignalResult latest previous latestWeekly midT shortT)

/-- Inversion: a successful evaluation determines the five row/trend
extractions and shows the result is the assembled record. -/
theorem analyze_signals_ok {df : List DRow} {dfw : List WeeklyRow}
    {r : SignalResult} (h : analyze_signals df dfw = .ok r) :
    ∃ latest previous latestWeekly midT shortT,
      ilocNeg df 1 = .ok latest ∧ ilocNeg df 2 = .ok previous ∧
      ilocNeg dfw 1 = .ok latestWeekly ∧
      midTrendOf df latest = .ok midT ∧
      shortTrendOf df latest = .ok shortT ∧
      r = mkSignalResult latest previous latestWeekly midT shortT := by
  unfold analyze_signals at h
  cases h1 : ilocNeg df 1 with
  | error e => rw [h1] at h; simp [Bind.bind, Except.bind] at h
  | ok latest =>
    rw [h1] at h
    cases h2 : ilocNeg df 2 with
    | error e => rw [h2] at h; simp [Bind.bind, Except.bind] at h
    | ok previous =>
      rw [h2] at h
      cases h3 : ilocNeg dfw 1 with
      | error e => rw [h3] at h; simp [Bind.bind, Except.bind] at h
      | ok latestWeekly =>
        rw [h3] at h
        simp only [Bind.bind, Except.bind] at h
        cases h4 : midTrendOf df latest with
        | error e => rw [h4] at h; simp [Bind.bind, Except.bind] at h
        | ok midT =>
          rw [h4] at h
          cases h5 : shortTrendOf df latest with
          | error e => rw [h5] at h; simp [Bind.bind, Except.bind] at h
          | ok shortT =>
            rw [h5] at h
            simp only [Bind.bind, Except.bind, pure, Except.pure, Except.ok.injEq] at h
            exact ⟨latest, previous, latestWeekly, midT, shortT,
              rfl, rfl, rfl, h4, h5, h.symm⟩

/-- A neutral daily row used for concrete evaluations: every column 1. -/
def dRow0 : DRow :=
  { close := 1, volume := 1, sma200 := 1, sma50 := 1, sma20 := 1,
    bbUpper := 1, bbLower := 1, rsi := 1, macd := 1, macdSignal := 1,
    volumeMa20 := 1, high60d := 1 }

/-- Ten identical rows: enough history for every `iloc` offset. -/
def testDf : List DRow := List.replicate 10 dRow0

/-- A one-row weekly table. -/
def testW : List WeeklyRow := [⟨1⟩]

/-- C1 — the final score is `min(accumulated score, 4)` when the long
trend is up and `0` whenever the long trend is not up, regardless of the
other signals.  The accumulated score is `accScore` of the latest and
previous rows. -/
theorem final_score_clamped_and_gated (df : List DRow) (dfw : List WeeklyRow)
    (r : SignalResult) (h : analyze_signals df dfw = .ok r) :
    (r.trendLong ≠ Trend.up → r.score = 0) ∧
    (∀ latest previous, ilocNeg df 1 = .ok latest → ilocNeg df 2 = .ok previous →
      r.trendLong = Trend.up → r.score = min (accScore latest previous Trend.up) 4) := by
  obtain ⟨latest, previous, lw, midT, shortT, e1, e2, e3, e4, e5, rfl⟩ :=
    analyze_signals_ok h
  constructor
  · intro hne
    simp only [mkSignalResult] at hne ⊢
    unfold finalScoreOf
    rw [if_neg hne]
  · intro l p hl hp hup
    have hlat : latest = l := Except.ok.inj (e1.symm.trans hl)
    have hprev : previous = p := Except.ok.inj (e2.symm.trans hp)
    subst hlat; subst hprev
    simp only [mkSignalResult] at hup ⊢
    unfold finalScoreOf
    rw [if_pos hup, hup]

/-- Witness for C1 at a concrete input: a ten-row table of constant rows
has long trend neutral, hence score 0. -/
theorem final_score_clamped_and_gated_witness :
    (mkSignalResult dRow0 dRow0 ⟨1⟩ Trend.neutral Trend.neutral).score = 0 :=
  (final_score_clamped_and_gated testDf testW _ rfl).1 (by decide)

/-- C9 — the star rating always shows exactly 4 glyphs: `score` filled
stars and `4 − score` empty ones. -/
theorem star_rating_glyph_count (df : List DRow) (dfw : List WeeklyRow)
    (r : SignalResult) (h : analyze_signals df dfw = .ok r) :
    r.star_rating.data.count '★' = r.score ∧
    r.star_rating.data.count '☆' = 4 - r.score ∧
    r.star_rating.data.count '★' + r.star_rating.data.count '☆' = 4 := by
  obtain ⟨latest, previous, lw, midT, shortT, e1, e2, e3, e4, e5, rfl⟩ :=
    analyze_signals_ok h
  have hle : finalScoreOf latest previous (longTrendOf latest lw) ≤ 4 := by
    unfold finalScoreOf
    split
    · exact min_le_right _ 4
    · omega
  simp only [mkSignalResult, starRatingOf]
  have hstar : ('★' : Char) ≠ '☆' := by decide
  constructor
  · simp [List.count_append, List.count_replicate, hstar]
  constructor
  · simp [List.count_append, List.count_replicate, hstar]
  · simp [List.count_append, List.count_replicate, hstar]
    omega

/-- Witness for C9 at a concrete input. -/
theorem star_rating_glyph_count_witness :
    (mkSignalResult dRow0 dRow0 ⟨1⟩ Trend.neutral Trend.neutral).star_rating.data.count '★'
      + (mkSignalResult dRow0 dRow0 ⟨1⟩ Trend.neutral Trend.neutral).star_rating.data.count '☆'
      = 4 :=
  (star_rating_glyph_count testDf testW _ rfl).2.2

/-- With at least ten daily rows, the mid-trend classification cannot
raise: either the `iloc[-10]` access is in bounds or it is skipped. -/
theorem midTrendOf_ok (df : List DRow) (latest : DRow) (h : 10 ≤ df.length) :
    ∃ t, midTrendOf df latest = .ok t := by
  unfold midTrendOf
  split
  · obtain ⟨v, hv⟩ := ilocNeg_ok_of_le df 10 (by omega) h
    rw [hv]
    exact ⟨_, rfl⟩
  · exact ⟨_, rfl⟩

/-- With at least five daily rows, the short-trend classification cannot
raise. -/
theorem shortTrendOf_ok (df : List DRow) (latest : DRow) (h : 5 ≤ df.length) :
    ∃ t, shortTrendOf df latest = .ok t := by
  unfold shortTrendOf
  split
  · obtain ⟨v, hv⟩ := ilocNeg_ok_of_le df 5 (by omega) h
    rw [hv]
    exact ⟨_, rfl⟩
  · exact ⟨_, rfl⟩

/-- C10 — with at least 10 daily rows and 1 weekly row every positional
access (`iloc[-1]`, `iloc[-2]`, `iloc[-5]`, `iloc[-10]`, weekly
`iloc[-1]`) is in bounds and the evaluator returns a complete result. -/
theorem analyze_signals_total_of_enough_rows (df : List DRow)
    (dfw : List WeeklyRow) (h10 : 10 ≤ df.length) (h1 : 1 ≤ dfw.length) :
    ∃ r, analyze_signals df dfw = .ok r := by
  obtain ⟨latest, hl⟩ := ilocNeg_ok_of_le df 1 (by omega) (by omega)
  obtain ⟨previous, hp⟩ := ilocNeg_ok_of_le df 2 (by omega) (by omega)
  obtain ⟨lw, hw⟩ := ilocNeg_ok_of_le dfw 1 (by omega) (by omega)
  obtain ⟨mt, hm⟩ := midTrendOf_ok df latest h10
  obtain ⟨st, hs⟩ := shortTrendOf_ok df latest (by omega)
  refine ⟨mkSignalResult latest previous lw mt st, ?_⟩
  unfold analyze_signals
  rw [hl]
  simp only [Bind.bind, Except.bind]
  rw [hp, hw, hm, hs]
  rfl

/-- Witness for C10 at a concrete input. -/
theorem analyze_signals_total_of_enough_rows_witness :
    ∃ r, analyze_signals (List.replicate 12 dRow0) [⟨2⟩, ⟨3⟩] = .ok r :=
  analyze_signals_total_of_enough_rows (List.replicate 12 dRow0) [⟨2⟩, ⟨3⟩]
    (by decide) (by decide)

/-- C2 counterexample — on empty tables `analyze_signals` raises an
`IndexError` (the unconditional `iloc[-1]` at line 49 is out of bounds):
there is no explicit "insufficient data" non-exception outcome. -/
theorem analyze_signals_empty_raises :
    analyze_signals ([] : List DRow) ([] : List WeeklyRow)
      = .error PyErr.indexError := rfl

/-- C2 amended — whenever the daily table has fewer than 2 rows or the
weekly table fewer than 1, `analyze_signals` raises an `IndexError`
(which the surrounding app shell catches); it does not produce a
dedicated insufficient-data result. -/
theorem analyze_signals_short_input_raises (df : List DRow)
    (dfw : List WeeklyRow) (h : df.length < 2 ∨ dfw.length < 1) :
    analyze_signals df dfw = .error PyErr.indexError := by
  unfold analyze_signals
  rcases h with h | h
  · by_cases h1 : df.length = 0
    · have e1 : ilocNeg df 1 = .error .indexError :=
        ilocNeg_err_of_gt df 1 (by omega)
      rw [e1]
      rfl
    · obtain ⟨v, e1⟩ := ilocNeg_ok_of_le df 1 (by omega) (by omega)
      have e2 : ilocNeg df 2 = .error .indexError :=
        ilocNeg_err_of_gt df 2 (by omega)
      rw [e1]
      simp only [Bind.bind, Except.bind]
      rw [e2]
  · have e3 : ilocNeg dfw 1 = .error .indexError :=
      ilocNeg_err_of_gt dfw 1 (by omega)
    cases e1 : ilocNeg df 1 with
    | error e =>
        cases e
        rfl
    | ok latest =>
        simp only [Bind.bind, Except.bind]
        cases e2 : ilocNeg df 2 with
        | error e =>
            cases e
            rfl
        | ok previous =>
            rw [e3]

/-- Witness for the amended C2 at a concrete input (one daily row). -/
theorem analyze_signals_short_input_raises_witness :
    analyze_signals [dRow0] [(⟨1⟩ : WeeklyRow)] = .error PyErr.indexError :=
  analyze_signals_short_input_raises [dRow0] [⟨1⟩] (Or.inl (by decide))

/-- The full description of the mid-term trend branch: given the value of
the `iloc[-10]` row it classifies exactly by the source's conditions
(`iloc[-10]` is the 10th row from the end, i.e. 9 bars before the latest
row `iloc[-1]`). -/
theorem midTrendOf_spec (df : List DRow) (latest r10 : DRow) (t : Trend)
    (h10 : ilocNeg df 10 = .ok r10) (h : midTrendOf df latest = .ok t) :
    (t = .up ↔ latest.close > latest.sma50 ∧ latest.sma50 > r10.sma50) ∧
    (t = .down ↔ latest.close < latest.sma50) ∧
    (t = .neutral ↔
      ¬(latest.close > latest.sma50 ∧ latest.sma50 > r10.sma50)
        ∧ ¬(latest.close < latest.sma50)) := by
  unfold midTrendOf at h
  by_cases hc : latest.close > latest.sma50
  · rw [if_pos hc, h10] at h
    simp only [Except.map] at h
    have hncd : ¬ latest.close < latest.sma50 := lt_asymm hc
    rw [if_neg hncd] at h
    by_cases hs : latest.sma50 > r10.sma50
    · rw [if_pos hs] at h
      have ht : t = .up := (Except.ok.inj h).symm
      subst ht
      refine ⟨by simp [hc, hs], ?_, ?_⟩
      · simp [hncd]
      · simp [hc, hs]
    · rw [if_neg hs] at h
      have ht : t = .neutral := (Except.ok.inj h).symm
      subst ht
      refine ⟨?_, ?_, ?_⟩
      · simp
        intro
        exact not_lt.mp hs
      · simp [hncd]
      · simp [hs, hncd]
  · rw [if_neg hc] at h
    by_cases hd : latest.close < latest.sma50
    · rw [if_pos hd] at h
      have ht : t = .down := (Except.ok.inj h).symm
      subst ht
      refine ⟨by simp [hc], by simp [hd], by simp [hd]⟩
    · rw [if_neg hd] at h
      have ht : t = .neutral := (Except.ok.inj h).symm
      subst ht
      refine ⟨by simp [hc], by simp [hd], by simp [hc, hd]⟩

/-- The short-term analogue with SMA20 and the `iloc[-5]` row (the 5th
row from the end, i.e. 4 bars before the latest). -/
theorem shortTrendOf_spec (df : List DRow) (latest r5 : DRow) (t : Trend)
    (h5 : ilocNeg df 5 = .ok r5) (h : shortTrendOf df latest = .ok t) :
    (t = .up ↔ latest.close > latest.sma20 ∧ latest.sma20 > r5.sma20) ∧
    (t = .down ↔ latest.close < latest.sma20) ∧
    (t = .neutral ↔
      ¬(latest.close > latest.sma20 ∧ latest.sma20 > r5.sma20)
        ∧ ¬(latest.close < latest.sma20)) := by
  unfold shortTrendOf at h
  by_cases hc : latest.close > latest.sma20
  · rw [if_pos hc, h5] at h
    simp only [Except.map] at h
    have hncd : ¬ latest.close < latest.sma20 := lt_asymm hc
    rw [if_neg hncd] at h
    by_cases hs : latest.sma20 > r5.sma20
    · rw [if_pos hs] at h
      have ht : t = .up := (Except.ok.inj h).symm
      subst ht
      refine ⟨by simp [hc, hs], by simp [hncd], by simp [hc, hs]⟩
    · rw [if_neg hs] at h
      have ht : t = .neutral := (Except.ok.inj h).symm
      subst ht
      refine ⟨?_, by simp [hncd], by simp [hs, hncd]⟩
      simp
      intro
      exact not_lt.mp hs
  · rw [if_neg hc] at h
    by_cases hd : latest.close < latest.sma20
    · rw [if_pos hd] at h
      have ht : t = .down := (Except.ok.inj h).symm
      subst ht
      refine ⟨by simp [hc], by simp [hd], by simp [hd]⟩
    · rw [if_neg hd] at h
      have ht : t = .neutral := (Except.ok.inj h).symm
      subst ht
      refine ⟨by simp [hc], by simp [hd], by simp [hc, hd]⟩

/-- Concrete data for the mid-trend offset check: eleven rows whose SMA50
differs between the 10th-from-last and the 11th-from-last positions. -/
def c6latest : DRow := { dRow0 with close := 10, sma50 := 5 }

/-- First (oldest) row: SMA50 = 6 — this is the row 10 bars prior to the
latest one, `iloc[-11]`. -/
def c6first : DRow := { dRow0 with sma50 := 6 }

/-- Second row: SMA50 = 4 — this is `iloc[-10]`, 9 bars prior to the
latest one. -/
def c6second : DRow := { dRow0 with sma50 := 4 }

/-- Eleven daily rows: `[c6first, c6second, dRow0 × 8, c6latest]`. -/
def c6df : List DRow := [c6first, c6second] ++ List.replicate 8 dRow0 ++ [c6latest]

/-- C6 counterexample — the evaluator classifies the mid trend as up on
`c6df` (because SMA50 of `iloc[-10]` is 4 < 5), even though the SMA50
value 10 bars prior to the latest bar (`iloc[-11]`) is 6 > 5, so the
claimed condition "close > SMA50 and SMA50 > SMA50 of 10 bars earlier"
is false: the code compares against the 10th-from-last row, which lies
only 9 bars before the latest. -/
theorem mid_trend_offset_counterexample :
    (analyze_signals c6df testW).map SignalResult.trendMid = Except.ok Trend.up ∧
    ilocNeg c6df 1 = Except.ok c6latest ∧
    ilocNeg c6df 11 = Except.ok c6first ∧
    ¬(c6latest.close > c6latest.sma50 ∧ c6latest.sma50 > c6first.sma50) :=
  ⟨rfl, rfl, rfl, by decide⟩

/-- C6 amended — the mid/short slope tests compare the latest SMA50/SMA20
against the 10th-from-last and 5th-from-last rows (`iloc[-10]`,
`iloc[-5]`), i.e. the values 9 and 4 bars prior to the latest bar; with
those offsets the up/down/neutral characterisation holds exactly. -/
theorem trend_slope_offsets (df : List DRow) (dfw : List WeeklyRow)
    (r : SignalResult) (latest r10 r5 : DRow)
    (h : analyze_signals df dfw = .ok r)
    (hl : ilocNeg df 1 = .ok latest)
    (h10 : ilocNeg df 10 = .ok r10)
    (h5 : ilocNeg df 5 = .ok r5) :
    ((r.trendMid = .up ↔
        latest.close > latest.sma50 ∧ latest.sma50 > r10.sma50) ∧
     (r.trendMid = .down ↔ latest.close < latest.sma50) ∧
     (r.trendMid = .neutral ↔
        ¬(latest.close > latest.sma50 ∧ latest.sma50 > r10.sma50)
          ∧ ¬(latest.close < latest.sma50))) ∧
    ((r.trendShort = .up ↔
        latest.close > latest.sma20 ∧ latest.sma20 > r5.sma20) ∧
     (r.trendShort = .down ↔ latest.close < latest.sma20) ∧
     (r.trendShort = .neutral ↔
        ¬(latest.close > latest.sma20 ∧ latest.sma20 > r5.sma20)
          ∧ ¬(latest.close < latest.sma20))) := by
  obtain ⟨l, p, lw, midT, shortT, e1, e2, e3, e4, e5, rfl⟩ := analyze_signals_ok h
  have hll : l = latest := Except.ok.inj (e1.symm.trans hl)
  subst hll
  have hm : (mkSignalResult l p lw midT shortT).trendMid = midT := rfl
  have hsr : (mkSignalResult l p lw midT shortT).trendShort = shortT := rfl
  rw [hm, hsr]
  exact ⟨midTrendOf_spec df l r10 midT h10 e4,
         shortTrendOf_spec df l r5 shortT h5 e5⟩

/-- The concrete result of evaluating `c6df` (mid trend up, short trend
neutral). -/
def c6result : SignalResult :=
  mkSignalResult c6latest dRow0 ⟨1⟩ Trend.up Trend.neutral

/-- Witness for the amended C6 at a concrete input. -/
theorem trend_slope_offsets_witness : c6result.trendMid = Trend.up :=
  ((trend_slope_offsets c6df testW c6result c6latest c6second dRow0
      rfl rfl rfl rfl).1.1).mpr (by decide)

/-! ## The indicator pipeline: `calculate_indicators` (lines 8–44)

The raw price table is a list of OHLCV rows indexed by a trading-day
number; day 0 is modelled as a Saturday, so the pandas `W-FRI` bins are
exactly the intervals `[7k, 7k+6]` (a week ending on a Friday) and the
weekly group key of a date is its day number divided by 7. -/

/-- One raw daily OHLCV bar. -/
structure PriceRow where
  date : ℕ
  popen : ℚ
  phigh : ℚ
  plow : ℚ
  pclose : ℚ
  pvol : ℚ
  deriving DecidableEq, Repr

/-- Default bar used with `List.getD` at indices proved in range. -/
def defaultPriceRow : PriceRow := ⟨0, 0, 0, 0, 0, 0⟩

/-- Model of `rolling(window=w).mean()`: NaN until the window is full
(pandas default `min_periods = window`), then the arithmetic mean of the
trailing `w` values. -/
def rollingMeanE (w : ℕ) (xs : List ℚ) : List EF :=
  (List.range xs.length).map fun i =>
    if i + 1 < w then EF.nan
    else EF.fin (((xs.take (i + 1)).drop (i + 1 - w)).sum / (w : ℚ))

/-- Model of `rolling(window=w).max()`: NaN until the window is full,
then the maximum of the trailing `w` values. -/
def rollingMaxE (w : ℕ) (xs : List ℚ) : List EF :=
  (List.range xs.length).map fun i =>
    if i + 1 < w then EF.nan
    else
      match (xs.take (i + 1)).drop (i + 1 - w) with
      | [] => EF.nan
      | y :: ys => EF.fin (ys.foldl max y)

/-- Model of `rolling(window=w).std()`: NaN until the window is full.
The recorded finite value is the sample variance (ddof = 1, pandas
default); the true standard deviation is its square root, which is
irrational in general and cannot be carried in `ℚ` — no logic in the
program reads this column's value, only its NaN pattern (through the
Bollinger columns and `dropna`), which coincides with the variance's. -/
def rollingStdE (w : ℕ) (xs : List ℚ) : List EF :=
  (List.range xs.length).map fun i =>
    if i + 1 < w then EF.nan
    else
      let win := (xs.take (i + 1)).drop (i + 1 - w)
      let m := win.sum / (w : ℚ)
      EF.fin ((win.map (fun x => (x - m) ^ 2)).sum / ((w : ℚ) - 1))

/-- Model of `delta.where(delta > 0, 0)` on `delta = Close.diff()`: the
positive close-to-close changes, with 0 elsewhere.  The NaN produced by
`diff()` at index 0 compares false, so `where` replaces it by 0 too. -/
def gains (cs : List ℚ) : List ℚ :=
  (List.range cs.length).map fun i =>
    match i with
    | 0 => 0
    | j + 1 => max (cs.getD (j + 1) 0 - cs.getD j 0) 0

/-- Model of `-delta.where(delta < 0, 0)`: the magnitudes of the negative
close-to-close changes, with 0 elsewhere. -/
def losses (cs : List ℚ) : List ℚ :=
  (List.range cs.length).map fun i =>
    match i with
    | 0 => 0
    | j + 1 => max (cs.getD j 0 - cs.getD (j + 1) 0) 0

/-- Model of `rs = gain / loss` (line 23): elementwise float division of
the two 14-bar rolling means, with IEEE semantics — `NaN/NaN = NaN`
(incomplete windows), `g/0 = +∞` for `g > 0`, `0/0 = NaN`. -/
def rsRaw (cs : List ℚ) : List EF :=
  List.zipWith EF.div (rollingMeanE 14 (gains cs)) (rollingMeanE 14 (losses cs))

/-- Model of `rs = rs.fillna(0)` (line 24): only NaN entries become 0;
infinite entries are untouched. -/
def rsFilled (cs : List ℚ) : List EF := (rsRaw cs).map EF.fillna0

/-- Model of `RSI = 100 - (100 / (1 + rs))` (line 25). -/
def rsiList (cs : List ℚ) : List EF :=
  (rsFilled cs).map fun rs =>
    EF.sub (EF.fin 100) (EF.div (EF.fin 100) (EF.add (EF.fin 1) rs))

/-- Recurrence of `ewm(span, adjust=False).mean()` after the seed:
`y = (1 - α)·prev + α·x`. -/
def ewmGo (a : ℚ) (prev : ℚ) : List ℚ → List ℚ
  | [] => []
  | x :: xs =>
      let y := (1 - a) * prev + a * x
      y :: ewmGo a y xs

/-- Model of `ewm(span=s, adjust=False).mean()` on a float series with no
NaN (all its call sites): seeded by the first value, smoothing factor
`α = 2/(s+1)`. -/
def ewmQ (s : ℕ) (xs : List ℚ) : List ℚ :=
  match xs with
  | [] => []
  | x :: rest => x :: ewmGo (2 / ((s : ℚ) + 1)) x rest

/-- The `ewm` recurrence lifted to `EF` values (used on the weekly close
column, whose entries are all finite after the `dropna` of line 39). -/
def ewmGoE (a : ℚ) (prev : EF) : List EF → List EF
  | [] => []
  | x :: xs =>
      let y := EF.add (EF.mul (EF.fin (1 - a)) prev) (EF.mul (EF.fin a) x)
      y :: ewmGoE a y xs

/-- Model of `ewm(span=s, adjust=False).mean()` on an `EF`-valued series. -/
def ewmE (s : ℕ) (xs : List EF) : List EF :=
  match xs with
  | [] => []
  | x :: rest => x :: ewmGoE (2 / ((s : ℚ) + 1)) x rest

/-- The ten derived columns assigned into the caller's frame by lines
11–34 (each a full-length series over the input rows). -/
structure DailyCols where
  sma200 : List EF
  sma50 : List EF
  sma20 : List EF
  bbUpper : List EF
  bbLower : List EF
  rsi : List EF
  volumeMa20 : List EF
  high60d : List EF
  macd : List ℚ
  macdSignal : List ℚ
  deriving DecidableEq, Repr

/-- Computation of the daily indicator columns (lines 11–34).  MACD and
its signal line are built from `ewm` on the gap-free close series and can
never be NaN, hence their plain `ℚ` type. -/
def dailyColsOf (rows : List PriceRow) : DailyCols :=
  let closes := rows.map PriceRow.pclose
  let sma20 := rollingMeanE 20 closes
  let std20 := rollingStdE 20 closes
  let macd := List.zipWith (fun a b => a - b) (ewmQ 12 closes) (ewmQ 26 closes)
  { sma200 := rollingMeanE 200 closes
    sma50 := rollingMeanE 50 closes
    sma20 := sma20
    bbUpper := List.zipWith EF.add sma20 (std20.map (fun s => EF.mul s (EF.fin 2)))
    bbLower := List.zipWith EF.sub sma20 (std20.map (fun s => EF.mul s (EF.fin 2)))
    rsi := rsiList closes
    volumeMa20 := rollingMeanE 20 (rows.map PriceRow.pvol)
    high60d := rollingMaxE 60 (rows.map PriceRow.phigh)
    macd := macd
    macdSignal := ewmQ 9 macd }

/-- One row of the enriched daily frame (raw bar plus the ten columns). -/
structure DRowE where
  date : ℕ
  popen : ℚ
  phigh : ℚ
  plow : ℚ
  pclose : ℚ
  pvol : ℚ
  sma200 : EF
  sma50 : EF
  sma20 : EF
  bbUpper : EF
  bbLower : EF
  rsi : EF
  volumeMa20 : EF
  high60d : EF
  macd : ℚ
  macdSignal : ℚ
  deriving DecidableEq, Repr

/-- Default enriched row used with `List.headD` / `List.getD`. -/
def dummyDRowE : DRowE :=
  ⟨0, 0, 0, 0, 0, 0, EF.nan, EF.nan, EF.nan, EF.nan, EF.nan, EF.nan,
   EF.nan, EF.nan, 0, 0⟩

/-- The enriched daily frame, row by row. -/
def buildDaily (rows : List PriceRow) : List DRowE :=
  let cols := dailyColsOf rows
  (List.range rows.length).map fun i =>
    let r := rows.getD i defaultPriceRow
    { date := r.date, popen := r.popen, phigh := r.phigh, plow := r.plow,
      pclose := r.pclose, pvol := r.pvol,
      sma200 := cols.sma200.getD i EF.nan
      sma50 := cols.sma50.getD i EF.nan
      sma20 := cols.sma20.getD i EF.nan
      bbUpper := cols.bbUpper.getD i EF.nan
      bbLower := cols.bbLower.getD i EF.nan
      rsi := cols.rsi.getD i EF.nan
      volumeMa20 := cols.volumeMa20.getD i EF.nan
      high60d := cols.high60d.getD i EF.nan
      macd := cols.macd.getD i 0
      macdSignal := cols.macdSignal.getD i 0 }

/-- Does a daily row contain a NaN in any column?  (Raw OHLCV, MACD and
the MACD signal are gap-free floats and cannot be NaN.) -/
def dRowHasNan (r : DRowE) : Bool :=
  r.sma200.isNan || r.sma50.isNan || r.sma20.isNan || r.bbUpper.isNan ||
  r.bbLower.isNan || r.rsi.isNan || r.volumeMa20.isNan || r.high60d.isNan

/-- Model of `df.dropna()` on the enriched daily frame (line 44). -/
def calcDaily (rows : List PriceRow) : List DRowE :=
  (buildDaily rows).filter (fun r => !(dRowHasNan r))

/-- Friday-anchored week key of a trading-day number (day 0 is modelled
as a Saturday, so week `k` is the interval `[7k, 7k+6]` ending Friday). -/
def weekKey (d : ℕ) : ℕ := d / 7

/-- One aggregated weekly bar before MACD: `first/max/min/last` leave NaN
on an empty week; `sum` yields 0 there, never NaN, hence `ℚ`. -/
structure WRowA where
  wopen : EF
  whigh : EF
  wlow : EF
  wclose : EF
  wvol : ℚ
  deriving DecidableEq, Repr

/-- Aggregation `first` of a float column. -/
def firstE (xs : List ℚ) : EF :=
  match xs with
  | [] => EF.nan
  | x :: _ => EF.fin x

/-- Aggregation `last` of a float column. -/
def lastE (xs : List ℚ) : EF :=
  match xs.getLast? with
  | none => EF.nan
  | some x => EF.fin x

/-- Aggregation `max` of a float column. -/
def maxE (xs : List ℚ) : EF :=
  match xs with
  | [] => EF.nan
  | x :: ys => EF.fin (ys.foldl max x)

/-- Aggregation `min` of a float column. -/
def minE (xs : List ℚ) : EF :=
  match xs with
  | [] => EF.nan
  | x :: ys => EF.fin (ys.foldl min x)

/-- Aggregation of one weekly bin per line 38's `agg` dictionary. -/
def aggWeek (g : List PriceRow) : WRowA :=
  { wopen := firstE (g.map PriceRow.popen)
    whigh := maxE (g.map PriceRow.phigh)
    wlow := minE (g.map PriceRow.plow)
    wclose := lastE (g.map PriceRow.pclose)
    wvol := (g.map PriceRow.pvol).sum }

/-- The `W-FRI` bins of `resample`: one bin per calendar week from the
first to the last occupied week, empty weeks included (they become
all-NaN rows under aggregation, exactly as in pandas). -/
def weekBins (rows : List PriceRow) : List (List PriceRow) :=
  match rows.map (fun r => weekKey r.date) with
  | [] => []
  | k :: ks =>
      let lo := ks.foldl min k
      let hi := ks.foldl max k
      (List.range (hi + 1 - lo)).map fun j =>
        rows.filter (fun r => weekKey r.date = lo + j)

/-- Model of `df.resample('W-FRI').agg(...)` (lines 37–39 before the
`dropna`). -/
def resampleWeekly (rows : List PriceRow) : List WRowA :=
  (weekBins rows).map aggWeek

/-- Does an aggregated weekly bar contain a NaN?  (Exactly the empty
weeks do.) -/
def wRowHasNan (w : WRowA) : Bool :=
  w.wopen.isNan || w.whigh.isNan || w.wlow.isNan || w.wclose.isNan

/-- Model of the `.dropna()` at line 39: empty-week rows are removed. -/
def weeklyAfterDropna (rows : List PriceRow) : List WRowA :=
  (resampleWeekly rows).filter (fun w => !(wRowHasNan w))

/-- One weekly bar with its MACD column (line 42). -/
structure WRowB where
  wopen : EF
  whigh : EF
  wlow : EF
  wclose : EF
  wvol : ℚ
  wmacd : EF
  deriving DecidableEq, Repr

/-- Default weekly bar used with `List.headD`. -/
def dummyWRowB : WRowB := ⟨EF.nan, EF.nan, EF.nan, EF.nan, 0, EF.nan⟩

/-- Lines 40–42: weekly MACD = EMA(12) − EMA(26) of the weekly closes,
attached to the weekly frame. -/
def weeklyWithMacd (rows : List PriceRow) : List WRowB :=
  let ws := weeklyAfterDropna rows
  let closesW := ws.map WRowA.wclose
  let macdW := List.zipWith EF.sub (ewmE 12 closesW) (ewmE 26 closesW)
  List.zipWith
    (fun (w : WRowA) m =>
      { wopen := w.wopen, whigh := w.whigh, wlow := w.wlow,
        wclose := w.wclose, wvol := w.wvol, wmacd := m : WRowB })
    ws macdW

/-- Does a weekly bar with MACD contain a NaN in any column? -/
def wRowBHasNan (w : WRowB) : Bool :=
  w.wopen.isNan || w.whigh.isNan || w.wlow.isNan || w.wclose.isNan ||
  w.wmacd.isNan

/-- Model of `df_weekly.dropna()` at line 44. -/
def calcWeekly (rows : List PriceRow) : List WRowB :=
  (weeklyWithMacd rows).filter (fun w => !(wRowBHasNan w))

/-- A caller-visible pandas frame: the raw rows plus, once assigned, the
indicator columns.  Column assignment (`df['SMA200'] = ...`) mutates the
frame in place, which the explicit-state embedding makes visible. -/
structure PyDataFrame where
  rows : List PriceRow
  indicators : Option DailyCols
  deriving DecidableEq, Repr

/-- Model of `calculate_indicators(df)` (lines 8–44).  The first
component is the caller's frame *after* the call (the column assignments
of lines 11–34 mutate it in place); the second and third are the
returned NaN-dropped daily and weekly tables (line 44). -/
def calculate_indicators (df : PyDataFrame) :
    PyDataFrame × List DRowE × List WRowB :=
  ({ rows := df.rows, indicators := some (dailyColsOf df.rows) },
   calcDaily df.rows, calcWeekly df.rows)

/-! ## Supporting lemmas about list access -/

/-- Elements of a `zipWith` come from the two lists pointwise. -/
theorem mem_zipWith_elim {α β γ : Type} (f : α → β → γ) :
    ∀ (l1 : List α) (l2 : List β), ∀ z ∈ List.zipWith f l1 l2,
      ∃ a ∈ l1, ∃ b ∈ l2, z = f a b := by
  intro l1
  induction l1 with
  | nil => intro l2 z hz; simp at hz
  | cons a l ih =>
      intro l2 z hz
      cases l2 with
      | nil => simp at hz
      | cons b l2 =>
          rw [List.zipWith_cons_cons] at hz
          rcases List.mem_cons.mp hz with h | h
          · exact ⟨a, List.mem_cons_self a l, b, List.mem_cons_self b l2, h⟩
          · obtain ⟨a', ha, b', hb, rfl⟩ := ih l2 z h
            exact ⟨a', List.mem_cons_of_mem a ha, b',
              List.mem_cons_of_mem b hb, rfl⟩

/-- The default head of a nonempty list is a member. -/
theorem headD_mem_of_ne_nil {α : Type} (l : List α) (d : α) (h : l ≠ []) :
    l.headD d ∈ l := by
  cases l with
  | nil => exact absurd rfl h
  | cons a t => simp [List.headD]

/-- Indexing into a mapped range below the bound. -/
theorem getD_range_map {β : Type} (f : ℕ → β) (n i : ℕ) (h : i < n) (d : β) :
    ((List.range n).map f).getD i d = f i := by
  have hlen : i < ((List.range n).map f).length := by simpa using h
  rw [List.getD_eq_getElem _ _ hlen, List.getElem_map, List.getElem_range]

theorem rollingMeanE_length (w : ℕ) (xs : List ℚ) :
    (rollingMeanE w xs).length = xs.length := by simp [rollingMeanE]

theorem gains_length (cs : List ℚ) : (gains cs).length = cs.length := by
  simp [gains]

theorem losses_length (cs : List ℚ) : (losses cs).length = cs.length := by
  simp [losses]

theorem rsRaw_length (cs : List ℚ) : (rsRaw cs).length = cs.length := by
  simp [rsRaw, rollingMeanE_length, gains_length, losses_length]

theorem rsFilled_length (cs : List ℚ) : (rsFilled cs).length = cs.length := by
  simp [rsFilled, rsRaw_length]

theorem rsiList_length (cs : List ℚ) : (rsiList cs).length = cs.length := by
  simp [rsiList, rsFilled_length]

/-- Pointwise form of the `rs = gain/loss` series. -/
theorem rsRaw_getD (cs : List ℚ) (i : ℕ) (h : i < cs.length) :
    (rsRaw cs).getD i EF.nan =
      EF.div ((rollingMeanE 14 (gains cs)).getD i EF.nan)
             ((rollingMeanE 14 (losses cs)).getD i EF.nan) := by
  have h1 : i < (rollingMeanE 14 (gains cs)).length := by
    rw [rollingMeanE_length, gains_length]; exact h
  have h2 : i < (rollingMeanE 14 (losses cs)).length := by
    rw [rollingMeanE_length, losses_length]; exact h
  have h3 : i < (rsRaw cs).length := by rw [rsRaw_length]; exact h
  rw [List.getD_eq_getElem _ _ h3, List.getD_eq_getElem _ _ h1,
    List.getD_eq_getElem _ _ h2]
  simp only [rsRaw]
  rw [List.getElem_zipWith]

/-- Pointwise form of the `fillna(0)` step. -/
theorem rsFilled_getD (cs : List ℚ) (i : ℕ) (h : i < cs.length) :
    (rsFilled cs).getD i EF.nan = EF.fillna0 ((rsRaw cs).getD i EF.nan) := by
  have h1 : i < (rsRaw cs).length := by rw [rsRaw_length]; exact h
  have h2 : i < (rsFilled cs).length := by rw [rsFilled_length]; exact h
  rw [List.getD_eq_getElem _ _ h2, List.getD_eq_getElem _ _ h1]
  simp only [rsFilled]
  rw [List.getElem_map]

/-- Pointwise form of the RSI series. -/
theorem rsiList_getD (cs : List ℚ) (i : ℕ) (h : i < cs.length) :
    (rsiList cs).getD i EF.nan =
      EF.sub (EF.fin 100)
        (EF.div (EF.fin 100) (EF.add (EF.fin 1) ((rsFilled cs).getD i EF.nan))) := by
  have h1 : i < (rsFilled cs).length := by rw [rsFilled_length]; exact h
  have h2 : i < (rsiList cs).length := by rw [rsiList_length]; exact h
  rw [List.getD_eq_getElem _ _ h2, List.getD_eq_getElem _ _ h1]
  simp only [rsiList]
  rw [List.getElem_map]

/-- Fifteen strictly increasing closes: every delta is a gain. -/
def c3closes : List ℚ := (List.range 15).map (Nat.cast : ℕ → ℚ)

theorem c3closes_getD (j : ℕ) (h : j < 15) : c3closes.getD j 0 = (j : ℚ) := by
  unfold c3closes
  exact getD_range_map _ _ _ h _

/-- Pointwise form of the mean series. -/
theorem rollingMeanE_getD (w : ℕ) (xs : List ℚ) (i : ℕ) (h : i < xs.length) :
    (rollingMeanE w xs).getD i EF.nan =
      if i + 1 < w then EF.nan
      else EF.fin (((xs.take (i + 1)).drop (i + 1 - w)).sum / (w : ℚ)) := by
  unfold rollingMeanE
  exact getD_range_map _ _ _ h _

theorem gains_getD_zero (cs : List ℚ) (h : 0 < cs.length) :
    (gains cs).getD 0 0 = 0 := by
  unfold gains
  exact getD_range_map _ _ _ h _

theorem gains_getD_succ (cs : List ℚ) (j : ℕ) (h : j + 1 < cs.length) :
    (gains cs).getD (j + 1) 0 = max (cs.getD (j + 1) 0 - cs.getD j 0) 0 := by
  unfold gains
  exact getD_range_map _ _ _ h _

theorem losses_getD_zero (cs : List ℚ) (h : 0 < cs.length) :
    (losses cs).getD 0 0 = 0 := by
  unfold losses
  exact getD_range_map _ _ _ h _

theorem losses_getD_succ (cs : List ℚ) (j : ℕ) (h : j + 1 < cs.length) :
    (losses cs).getD (j + 1) 0 = max (cs.getD j 0 - cs.getD (j + 1) 0) 0 := by
  unfold losses
  exact getD_range_map _ _ _ h _

/-- On the rising test series every loss entry is 0. -/
theorem losses_c3 : losses c3closes = List.replicate 15 0 := by
  have hlen : c3closes.length = 15 := by simp [c3closes]
  apply List.ext_getElem
  · simp [losses_length, hlen]
  · intro i h1 h2
    have hi15 : i < 15 := by
      rw [losses_length, hlen] at h1
      exact h1
    rw [List.getElem_replicate, ← List.getD_eq_getElem (losses c3closes) 0 h1]
    cases i with
    | zero => exact losses_getD_zero c3closes (by omega)
    | succ j =>
        rw [losses_getD_succ c3closes j (by omega),
          c3closes_getD j (by omega), c3closes_getD (j + 1) hi15]
        have hd : (j : ℚ) - ((j + 1 : ℕ) : ℚ) = -1 := by push_cast; ring
        rw [hd]
        exact max_eq_right (by norm_num)

/-- On the rising test series the gains are 0 followed by fourteen 1s. -/
theorem gains_c3 : gains c3closes = (0 : ℚ) :: List.replicate 14 1 := by
  have hlen : c3closes.length = 15 := by simp [c3closes]
  apply List.ext_getElem
  · simp [gains_length, hlen]
  · intro i h1 h2
    have hi15 : i < 15 := by
      rw [gains_length, hlen] at h1
      exact h1
    rw [← List.getD_eq_getElem (gains c3closes) 0 h1,
      ← List.getD_eq_getElem ((0 : ℚ) :: List.replicate 14 1) 0 h2]
    cases i with
    | zero => exact gains_getD_zero c3closes (by omega)
    | succ j =>
        have hrep : (((0 : ℚ) :: List.replicate 14 1)).getD (j + 1) 0 = 1 := by
          have hj : j < (List.replicate 14 (1 : ℚ)).length := by
            simp
            omega
          simp only [List.getD_cons_succ]
          rw [List.getD_eq_getElem _ _ hj, List.getElem_replicate]
        rw [hrep, gains_getD_succ c3closes j (by omega),
          c3closes_getD (j + 1) hi15, c3closes_getD j (by omega)]
        have hd : ((j + 1 : ℕ) : ℚ) - (j : ℚ) = 1 := by push_cast; ring
        rw [hd]
        exact max_eq_left (by norm_num)

/-- The trailing-14 average loss at row 14 of the rising series is 0. -/
theorem c3_avgLoss :
    (rollingMeanE 14 (losses c3closes)).getD 14 EF.nan = EF.fin 0 := by
  rw [rollingMeanE_getD 14 (losses c3closes) 14
      (by simp [losses_length, c3closes])]
  rw [if_neg (by norm_num), losses_c3]
  norm_num [List.take_replicate, List.drop_replicate, List.sum_replicate]

/-- The trailing-14 average gain at row 14 of the rising series is 1. -/
theorem c3_avgGain :
    (rollingMeanE 14 (gains c3closes)).getD 14 EF.nan = EF.fin 1 := by
  rw [rollingMeanE_getD 14 (gains c3closes) 14
      (by simp [gains_length, c3closes])]
  rw [if_neg (by norm_num), gains_c3]
  have htake : ((0 : ℚ) :: List.replicate 14 1).take 15
      = (0 : ℚ) :: List.replicate 14 1 :=
    List.take_of_length_le (by simp)
  rw [htake, List.drop_one, List.tail_cons]
  norm_num [List.sum_replicate]

/-- C3 counterexample — at row 14 of a strictly rising close series the
trailing-14 average loss is 0 and the average gain is 1, yet the RS after
`fillna(0)` is +∞, not 0: `fillna` only replaces NaN (the 0/0 and
warm-up cases), while `1/0` is the float infinity; the RSI there
evaluates to 100 through ∞-arithmetic. -/
theorem rs_zero_loss_counterexample :
    (rollingMeanE 14 (losses c3closes)).getD 14 EF.nan = EF.fin 0 ∧
    (rollingMeanE 14 (gains c3closes)).getD 14 EF.nan = EF.fin 1 ∧
    (rsFilled c3closes).getD 14 EF.nan = EF.pinf ∧
    (rsiList c3closes).getD 14 EF.nan = EF.fin 100 := by
  have hi : (14 : ℕ) < c3closes.length := by simp [c3closes]
  have hrs : (rsFilled c3closes).getD 14 EF.nan = EF.pinf := by
    rw [rsFilled_getD _ _ hi, rsRaw_getD _ _ hi, c3_avgGain, c3_avgLoss]
    norm_num [EF.div, EF.fillna0]
  refine ⟨c3_avgLoss, c3_avgGain, hrs, ?_⟩
  rw [rsiList_getD _ _ hi, hrs]
  norm_num [EF.sub, EF.add, EF.neg, EF.div]

/-- C3 amended — when the trailing-14 average loss is 0, the RS value is
0 exactly when the average gain is also 0 (the 0/0 NaN replaced by
`fillna(0)`, giving RSI = 0); when the average gain is positive RS is +∞
(not 0) and RSI evaluates to exactly 100 through the formula. -/
theorem rs_zero_loss_amended (cs : List ℚ) (i : ℕ) (g : ℚ)
    (hg : (rollingMeanE 14 (gains cs)).getD i EF.nan = EF.fin g)
    (hl : (rollingMeanE 14 (losses cs)).getD i EF.nan = EF.fin 0) :
    (g = 0 → (rsFilled cs).getD i EF.nan = EF.fin 0 ∧
             (rsiList cs).getD i EF.nan = EF.fin 0) ∧
    (0 < g → (rsFilled cs).getD i EF.nan = EF.pinf ∧
             (rsiList cs).getD i EF.nan = EF.fin 100) := by
  have hi : i < cs.length := by
    by_contra hge
    push_neg at hge
    have hlen : (rollingMeanE 14 (gains cs)).length ≤ i := by
      rw [rollingMeanE_length, gains_length]; exact hge
    rw [List.getD_eq_default _ _ hlen] at hg
    exact EF.noConfusion hg
  have hrs : (rsFilled cs).getD i EF.nan
      = EF.fillna0 (EF.div (EF.fin g) (EF.fin 0)) := by
    rw [rsFilled_getD cs i hi, rsRaw_getD cs i hi, hg, hl]
  constructor
  · intro h0
    subst h0
    have hdiv : EF.div (EF.fin 0) (EF.fin 0) = EF.nan := by
      norm_num [EF.div]
    have hv : (rsFilled cs).getD i EF.nan = EF.fin 0 := by
      rw [hrs, hdiv]; rfl
    refine ⟨hv, ?_⟩
    rw [rsiList_getD cs i hi, hv]
    show EF.sub (EF.fin 100) (EF.div (EF.fin 100) (EF.fin (1 + 0))) = EF.fin 0
    norm_num [EF.sub, EF.add, EF.neg, EF.div]
  · intro hpos
    have hdiv : EF.div (EF.fin g) (EF.fin 0) = EF.pinf := by
      simp [EF.div, hpos]
    have hv : (rsFilled cs).getD i EF.nan = EF.pinf := by
      rw [hrs, hdiv]; rfl
    refine ⟨hv, ?_⟩
    rw [rsiList_getD cs i hi, hv]
    show EF.sub (EF.fin 100) (EF.div (EF.fin 100) EF.pinf) = EF.fin 100
    norm_num [EF.sub, EF.add, EF.neg, EF.div]


/-- Fifteen constant closes: no gains, no losses. -/
def c3flat : List ℚ := List.replicate 15 1

theorem c3flat_getD (j : ℕ) (h : j < 15) : c3flat.getD j 0 = 1 := by
  unfold c3flat
  rw [List.getD_eq_getElem _ _ (by simpa using h), List.getElem_replicate]

/-- Both difference series of the flat test list vanish. -/
theorem gains_c3flat : gains c3flat = List.replicate 15 0 := by
  have hlen : c3flat.length = 15 := by simp [c3flat]
  apply List.ext_getElem
  · simp [gains_length, hlen]
  · intro i h1 h2
    have hi15 : i < 15 := by
      rw [gains_length, hlen] at h1
      exact h1
    rw [List.getElem_replicate, ← List.getD_eq_getElem (gains c3flat) 0 h1]
    cases i with
    | zero => exact gains_getD_zero c3flat (by omega)
    | succ j =>
        rw [gains_getD_succ c3flat j (by omega),
          c3flat_getD (j + 1) hi15, c3flat_getD j (by omega)]
        norm_num

/-- The loss series of the flat list also vanishes. -/
theorem losses_c3flat : losses c3flat = List.replicate 15 0 := by
  have hlen : c3flat.length = 15 := by simp [c3flat]
  apply List.ext_getElem
  · simp [losses_length, hlen]
  · intro i h1 h2
    have hi15 : i < 15 := by
      rw [losses_length, hlen] at h1
      exact h1
    rw [List.getElem_replicate, ← List.getD_eq_getElem (losses c3flat) 0 h1]
    cases i with
    | zero => exact losses_getD_zero c3flat (by omega)
    | succ j =>
        rw [losses_getD_succ c3flat j (by omega),
          c3flat_getD (j + 1) hi15, c3flat_getD j (by omega)]
        norm_num

/-- The flat series has average gain and loss both 0 at row 14. -/
theorem c3flat_means :
    (rollingMeanE 14 (gains c3flat)).getD 14 EF.nan = EF.fin 0 ∧
    (rollingMeanE 14 (losses c3flat)).getD 14 EF.nan = EF.fin 0 := by
  constructor
  · rw [rollingMeanE_getD 14 (gains c3flat) 14
        (by simp [gains_length, c3flat])]
    rw [if_neg (by norm_num), gains_c3flat]
    norm_num [List.take_replicate, List.drop_replicate, List.sum_replicate]
  · rw [rollingMeanE_getD 14 (losses c3flat) 14
        (by simp [losses_length, c3flat])]
    rw [if_neg (by norm_num), losses_c3flat]
    norm_num [List.take_replicate, List.drop_replicate, List.sum_replicate]

/-- Witness for the amended C3: on a flat series the 0/0 case yields
RS = 0 and RSI = 0. -/
theorem rs_zero_loss_amended_witness :
    (rsFilled c3flat).getD 14 EF.nan = EF.fin 0 ∧
    (rsiList c3flat).getD 14 EF.nan = EF.fin 0 :=
  (rs_zero_loss_amended c3flat 14 0 c3flat_means.1 c3flat_means.2).1 rfl

/-! ## C5: the weekly table and its MACD column -/

/-- Fifteen consecutive days spanning exactly three calendar weeks. -/
def rowsThreeWeeks : List PriceRow := (List.range 15).map fun i => ⟨i, 1, 1, 1, 1, 1⟩

set_option maxRecDepth 10000 in
/-- C5 counterexample — a weekly table built from only 3 weeks (fewer
than 26) still contributes all 3 of its rows after every `dropna`:
nothing is dropped for lack of a MACD value. -/
theorem weekly_short_history_keeps_rows :
    (weeklyAfterDropna rowsThreeWeeks).length = 3 ∧
    (weeklyAfterDropna rowsThreeWeeks).length < 26 ∧
    (calcWeekly rowsThreeWeeks).length = 3 := by decide

/-- Each weekly aggregate field is NaN or finite (never infinite). -/
theorem aggWeek_finOrNan (g : List PriceRow) :
    ((aggWeek g).wopen = EF.nan ∨ ∃ q, (aggWeek g).wopen = EF.fin q) ∧
    ((aggWeek g).whigh = EF.nan ∨ ∃ q, (aggWeek g).whigh = EF.fin q) ∧
    ((aggWeek g).wlow = EF.nan ∨ ∃ q, (aggWeek g).wlow = EF.fin q) ∧
    ((aggWeek g).wclose = EF.nan ∨ ∃ q, (aggWeek g).wclose = EF.fin q) := by
  refine ⟨?_, ?_, ?_, ?_⟩
  · cases hg : g.map PriceRow.popen with
    | nil => left; simp [aggWeek, firstE, hg]
    | cons x xs => right; exact ⟨x, by simp [aggWeek, firstE, hg]⟩
  · cases hg : g.map PriceRow.phigh with
    | nil => left; simp [aggWeek, maxE, hg]
    | cons x xs => right; exact ⟨xs.foldl max x, by simp [aggWeek, maxE, hg]⟩
  · cases hg : g.map PriceRow.plow with
    | nil => left; simp [aggWeek, minE, hg]
    | cons x xs => right; exact ⟨xs.foldl min x, by simp [aggWeek, minE, hg]⟩
  · cases hg : (g.map PriceRow.pclose).getLast? with
    | none => left; simp [aggWeek, lastE, hg]
    | some x => right; exact ⟨x, by simp [aggWeek, lastE, hg]⟩

/-- A non-NaN value that is NaN-or-finite is finite. -/
theorem notNan_fin {x : EF} (h1 : x = EF.nan ∨ ∃ q, x = EF.fin q)
    (h2 : x.isNan = false) : ∃ q, x = EF.fin q := by
  rcases h1 with rfl | hq
  · simp [EF.isNan] at h2
  · exact hq

/-- After the first `dropna` every weekly OHLC field is finite. -/
theorem weeklyAfterDropna_fin (rows : List PriceRow) :
    ∀ w ∈ weeklyAfterDropna rows,
      (∃ q, w.wopen = EF.fin q) ∧ (∃ q, w.whigh = EF.fin q) ∧
      (∃ q, w.wlow = EF.fin q) ∧ (∃ q, w.wclose = EF.fin q) := by
  intro w hw
  obtain ⟨hmem, hpred⟩ := List.mem_filter.mp hw
  obtain ⟨g, hg, hwg⟩ := List.mem_map.mp hmem
  simp only [Bool.not_eq_eq_eq_not, Bool.not_true, wRowHasNan,
    Bool.or_eq_false_iff] at hpred
  obtain ⟨⟨⟨p1, p2⟩, p3⟩, p4⟩ := hpred
  obtain ⟨a1, a2, a3, a4⟩ := aggWeek_finOrNan g
  rw [hwg] at a1 a2 a3 a4
  exact ⟨notNan_fin a1 p1, notNan_fin a2 p2, notNan_fin a3 p3, notNan_fin a4 p4⟩

/-- The `ewm` recurrence keeps finite values finite. -/
theorem ewmGoE_fin (a : ℚ) :
    ∀ (xs : List EF) (prev : EF), (∃ p, prev = EF.fin p) →
      (∀ x ∈ xs, ∃ q, x = EF.fin q) →
      ∀ y ∈ ewmGoE a prev xs, ∃ q, y = EF.fin q := by
  intro xs
  induction xs with
  | nil =>
      intro prev _ _ y hy
      simp [ewmGoE] at hy
  | cons x xs ih =>
      intro prev hp hall y hy
      obtain ⟨p, hp2⟩ := hp
      obtain ⟨q, hq2⟩ := hall x (List.mem_cons_self x xs)
      subst hp2
      have hstep : EF.add (EF.mul (EF.fin (1 - a)) (EF.fin p))
          (EF.mul (EF.fin a) (EF.fin q)) = EF.fin ((1 - a) * p + a * q) := rfl
      simp only [ewmGoE, hq2, hstep] at hy
      rcases List.mem_cons.mp hy with rfl | h
      · exact ⟨_, rfl⟩
      · exact ih (EF.fin ((1 - a) * p + a * q)) ⟨_, rfl⟩
          (fun z hz => hall z (List.mem_cons_of_mem x hz)) y h

/-- An `ewm` series over finite values is finite everywhere. -/
theorem ewmE_fin (s : ℕ) (xs : List EF)
    (hall : ∀ x ∈ xs, ∃ q, x = EF.fin q) :
    ∀ y ∈ ewmE s xs, ∃ q, y = EF.fin q := by
  cases xs with
  | nil =>
      intro y hy
      simp [ewmE] at hy
  | cons x rest =>
      intro y hy
      simp only [ewmE] at hy
      rcases List.mem_cons.mp hy with rfl | h
      · exact hall y (List.mem_cons_self y rest)
      · exact ewmGoE_fin _ rest x (hall x (List.mem_cons_self x rest))
          (fun z hz => hall z (List.mem_cons_of_mem x hz)) y h

/-- Every row of the weekly frame with MACD attached is NaN-free and its
MACD value is finite. -/
theorem weeklyWithMacd_elem (rows : List PriceRow) :
    ∀ w ∈ weeklyWithMacd rows,
      wRowBHasNan w = false ∧ ∃ q, w.wmacd = EF.fin q := by
  intro w hw
  unfold weeklyWithMacd at hw
  obtain ⟨a, ha, m, hm, rfl⟩ := mem_zipWith_elim _ _ _ w hw
  obtain ⟨⟨q1, e1⟩, ⟨q2, e2⟩, ⟨q3, e3⟩, ⟨q4, e4⟩⟩ :=
    weeklyAfterDropna_fin rows a ha
  have hclose : ∀ x ∈ (weeklyAfterDropna rows).map WRowA.wclose,
      ∃ q, x = EF.fin q := by
    intro x hx
    obtain ⟨b, hb, rfl⟩ := List.mem_map.mp hx
    exact (weeklyAfterDropna_fin rows b hb).2.2.2
  obtain ⟨u, hu, v, hv, rfl⟩ := mem_zipWith_elim _ _ _ m hm
  obtain ⟨qu, rfl⟩ := ewmE_fin 12 _ hclose u hu
  obtain ⟨qv, rfl⟩ := ewmE_fin 26 _ hclose v hv
  have hsub : EF.sub (EF.fin qu) (EF.fin qv) = EF.fin (qu + -qv) := rfl
  refine ⟨?_, ⟨qu + -qv, hsub⟩⟩
  simp [wRowBHasNan, e1, e2, e3, e4, hsub, EF.isNan]

/-- C5 amended — every weekly row carries a defined (finite) MACD from
the very first week (`ewm(adjust=False)` is seeded by the first value,
with no warm-up), so the final `dropna` drops nothing: a weekly table
built from fewer than 26 weeks still contributes all of its rows. -/
theorem weekly_macd_always_defined (rows : List PriceRow) :
    calcWeekly rows = weeklyWithMacd rows ∧
    ∀ w ∈ calcWeekly rows, ∃ q, w.wmacd = EF.fin q := by
  have hfix : calcWeekly rows = weeklyWithMacd rows := by
    unfold calcWeekly
    rw [List.filter_eq_self.mpr]
    intro w hw
    simp [(weeklyWithMacd_elem rows w hw).1]
  refine ⟨hfix, ?_⟩
  intro w hw
  rw [hfix] at hw
  exact (weeklyWithMacd_elem rows w hw).2

/-- Witness for the amended C5 at a concrete input. -/
theorem weekly_macd_always_defined_witness :
    ∃ q, ((calcWeekly rowsThreeWeeks).headD dummyWRowB).wmacd = EF.fin q :=
  (weekly_macd_always_defined rowsThreeWeeks).2 _
    (headD_mem_of_ne_nil _ _ (by decide))

/-! ## C7: frame effects of the engine calls -/

/-- A one-row frame before any indicator has been assigned. -/
def c7input : PyDataFrame := { rows := [⟨0, 1, 1, 1, 1, 1⟩], indicators := none }

/-- C7 counterexample — `calculate_indicators` does not leave the
caller's frame unchanged: after the call the frame carries the ten
indicator columns that the column assignments of lines 11–34 added in
place. -/
theorem calculate_indicators_mutates : (calculate_indicators c7input).1 ≠ c7input := by
  intro h
  have h2 := congrArg PyDataFrame.indicators h
  simp [calculate_indicators, c7input] at h2

/-- C7 amended — `calculate_indicators` preserves the caller's rows and
deterministically sets the indicator columns, but it does mutate the
caller's frame whenever the columns were not already present; it keeps
no other state (the returned tables are functions of the input rows
alone). -/
theorem calculate_indicators_effect (df : PyDataFrame) :
    (calculate_indicators df).1.rows = df.rows ∧
    (calculate_indicators df).1.indicators = some (dailyColsOf df.rows) ∧
    (calculate_indicators df).2 = (calcDaily df.rows, calcWeekly df.rows) ∧
    (df.indicators = none → (calculate_indicators df).1 ≠ df) := by
  refine ⟨rfl, rfl, rfl, ?_⟩
  intro hn heq
  have h2 := congrArg PyDataFrame.indicators heq
  rw [hn] at h2
  simp [calculate_indicators] at h2

/-- A two-row frame used as the witness input. -/
def c7input2 : PyDataFrame :=
  { rows := [⟨0, 1, 1, 1, 1, 1⟩, ⟨1, 2, 2, 2, 2, 2⟩], indicators := none }

/-- Witness for the amended C7 at a concrete input. -/
theorem calculate_indicators_effect_witness :
    (calculate_indicators c7input2).1 ≠ c7input2 :=
  (calculate_indicators_effect c7input2).2.2.2 rfl

/-! ## C4: RSI stays within [0, 100] wherever defined -/

/-- Gains are non-negative by construction. -/
theorem gains_nonneg (cs : List ℚ) : ∀ x ∈ gains cs, 0 ≤ x := by
  intro x hx
  obtain ⟨i, hi, rfl⟩ := List.mem_map.mp hx
  cases i with
  | zero => exact le_refl 0
  | succ j => exact le_max_right _ 0

/-- Losses are non-negative by construction. -/
theorem losses_nonneg (cs : List ℚ) : ∀ x ∈ losses cs, 0 ≤ x := by
  intro x hx
  obtain ⟨i, hi, rfl⟩ := List.mem_map.mp hx
  cases i with
  | zero => exact le_refl 0
  | succ j => exact le_max_right _ 0

/-- A rolling mean of non-negative values is NaN (incomplete window) or a
non-negative finite value. -/
theorem rollingMeanE_class (w : ℕ) (xs : List ℚ) (hxs : ∀ q ∈ xs, 0 ≤ q) :
    ∀ a ∈ rollingMeanE w xs, a = EF.nan ∨ ∃ q, a = EF.fin q ∧ 0 ≤ q := by
  intro a ha
  obtain ⟨i, hi, rfl⟩ := List.mem_map.mp ha
  by_cases hcond : i + 1 < w
  · left
    simp [hcond]
  · right
    refine ⟨((xs.take (i + 1)).drop (i + 1 - w)).sum / (w : ℚ), by simp [hcond], ?_⟩
    apply div_nonneg
    · apply List.sum_nonneg
      intro x hx
      exact hxs x (((List.drop_sublist _ _).trans (List.take_sublist _ _)).subset hx)
    · exact Nat.cast_nonneg w

/-- Every RS entry after `fillna(0)` is a non-negative finite value or
+∞. -/
theorem rsFilled_class (cs : List ℚ) :
    ∀ r ∈ rsFilled cs, (∃ q, r = EF.fin q ∧ 0 ≤ q) ∨ r = EF.pinf := by
  intro r hr
  obtain ⟨z, hz, rfl⟩ := List.mem_map.mp hr
  obtain ⟨a, ha, b, hb, rfl⟩ := mem_zipWith_elim _ _ _ z hz
  rcases rollingMeanE_class 14 (gains cs) (gains_nonneg cs) a ha with rfl | ⟨qa, rfl, hqa⟩
  · left
    refine ⟨0, ?_, le_refl 0⟩
    have hd : EF.div EF.nan b = EF.nan := by cases b <;> rfl
    rw [hd]
    rfl
  · rcases rollingMeanE_class 14 (losses cs) (losses_nonneg cs) b hb with rfl | ⟨qb, rfl, hqb⟩
    · left
      exact ⟨0, rfl, le_refl 0⟩
    · by_cases hb0 : qb = 0
      · subst hb0
        by_cases ha0 : 0 < qa
        · right
          simp [EF.div, EF.fillna0, ha0]
        · left
          have ha0' : qa = 0 := le_antisymm (not_lt.mp ha0) hqa
          subst ha0'
          refine ⟨0, ?_, le_refl 0⟩
          norm_num [EF.div, EF.fillna0]
      · left
        refine ⟨qa / qb, ?_, div_nonneg hqa hqb⟩
        simp [EF.div, EF.fillna0, hb0]

/-- Every defined RSI value lies in [0, 100]. -/
theorem rsiList_class (cs : List ℚ) :
    ∀ x ∈ rsiList cs, ∃ q, x = EF.fin q ∧ 0 ≤ q ∧ q ≤ 100 := by
  intro x hx
  obtain ⟨r, hr, rfl⟩ := List.mem_map.mp hx
  rcases rsFilled_class cs r hr with ⟨q, rfl, hq⟩ | rfl
  · have h1q : (0 : ℚ) < 1 + q := by linarith
    have hne : (1 : ℚ) + q ≠ 0 := ne_of_gt h1q
    have hstep1 : EF.add (EF.fin 1) (EF.fin q) = EF.fin (1 + q) := rfl
    have hstep2 : EF.div (EF.fin 100) (EF.fin (1 + q)) = EF.fin (100 / (1 + q)) := by
      simp [EF.div, hne]
    have hstep3 : EF.sub (EF.fin 100) (EF.fin (100 / (1 + q)))
        = EF.fin (100 + -(100 / (1 + q))) := rfl
    refine ⟨100 + -(100 / (1 + q)), by rw [hstep1, hstep2, hstep3], ?_, ?_⟩
    · have hle : 100 / (1 + q) ≤ 100 := by
        apply div_le_self (by norm_num)
        linarith
      linarith
    · have hge : 0 ≤ 100 / (1 + q) := by positivity
      linarith
  · refine ⟨100, ?_, by norm_num, le_refl 100⟩
    show EF.sub (EF.fin 100) (EF.div (EF.fin 100) (EF.add (EF.fin 1) EF.pinf))
      = EF.fin 100
    norm_num [EF.add, EF.div, EF.sub, EF.neg]

/-- The RSI field of every surviving daily row is an entry of the RSI
series of the close column. -/
theorem calcDaily_rsi_mem (rows : List PriceRow) :
    ∀ r ∈ calcDaily rows, r.rsi ∈ rsiList (rows.map PriceRow.pclose) := by
  intro r hr
  have hb : r ∈ buildDaily rows := (List.mem_filter.mp hr).1
  unfold buildDaily at hb
  obtain ⟨i, hi, rfl⟩ := List.mem_map.mp hb
  have hi2 : i < rows.length := List.mem_range.mp hi
  show (dailyColsOf rows).rsi.getD i EF.nan ∈ _
  have hcols : (dailyColsOf rows).rsi = rsiList (rows.map PriceRow.pclose) := rfl
  rw [hcols]
  have hlen : i < (rsiList (rows.map PriceRow.pclose)).length := by
    rw [rsiList_length, List.length_map]
    exact hi2
  rw [List.getD_eq_getElem _ _ hlen]
  exact List.getElem_mem hlen

/-- C4 — for a price series with at least 200 daily bars and at least 26
weekly rows, every RSI value of the returned daily table is a defined
(finite) value in [0, 100]. -/
theorem rsi_bounded (rows : List PriceRow)
    (h200 : 200 ≤ rows.length)
    (h26 : 26 ≤ (calcWeekly rows).length) :
    ∀ r ∈ calcDaily rows, ∃ q : ℚ, r.rsi = EF.fin q ∧ 0 ≤ q ∧ q ≤ 100 := by
  intro r hr
  exact rsiList_class _ _ (calcDaily_rsi_mem rows r hr)

/-- Indexing into a `zipWith` below both bounds. -/
theorem getD_zipWith {α β γ : Type} (f : α → β → γ) (l1 : List α)
    (l2 : List β) (i : ℕ) (h1 : i < l1.length) (h2 : i < l2.length)
    (d : γ) (d1 : α) (d2 : β) :
    (List.zipWith f l1 l2).getD i d = f (l1.getD i d1) (l2.getD i d2) := by
  have hz : i < (List.zipWith f l1 l2).length := by
    rw [List.length_zipWith]
    omega
  rw [List.getD_eq_getElem _ _ hz, List.getD_eq_getElem _ _ h1,
    List.getD_eq_getElem _ _ h2, List.getElem_zipWith]

/-- Indexing into a `map` below the bound. -/
theorem getD_map {α β : Type} (f : α → β) (l : List α) (i : ℕ)
    (h : i < l.length) (d : β) (d1 : α) :
    (l.map f).getD i d = f (l.getD i d1) := by
  rw [List.getD_eq_getElem _ _ (by simpa using h), List.getElem_map,
    List.getD_eq_getElem _ _ h]

theorem rollingStdE_length (w : ℕ) (xs : List ℚ) :
    (rollingStdE w xs).length = xs.length := by simp [rollingStdE]

theorem rollingMaxE_length (w : ℕ) (xs : List ℚ) :
    (rollingMaxE w xs).length = xs.length := by simp [rollingMaxE]

/-- Pointwise form of the rolling max series. -/
theorem rollingMaxE_getD (w : ℕ) (xs : List ℚ) (i : ℕ) (h : i < xs.length) :
    (rollingMaxE w xs).getD i EF.nan =
      if i + 1 < w then EF.nan
      else
        match (xs.take (i + 1)).drop (i + 1 - w) with
        | [] => EF.nan
        | y :: ys => EF.fin (ys.foldl max y) := by
  unfold rollingMaxE
  exact getD_range_map _ _ _ h _

/-- Pointwise form of the rolling std series. -/
theorem rollingStdE_getD (w : ℕ) (xs : List ℚ) (i : ℕ) (h : i < xs.length) :
    (rollingStdE w xs).getD i EF.nan =
      if i + 1 < w then EF.nan
      else EF.fin ((((xs.take (i + 1)).drop (i + 1 - w)).map
          (fun x => (x - ((xs.take (i + 1)).drop (i + 1 - w)).sum / (w : ℚ)) ^ 2)).sum
          / ((w : ℚ) - 1)) := by
  unfold rollingStdE
  exact getD_range_map _ _ _ h _

/-- A full-window rolling mean entry is finite. -/
theorem mean_col_fin (w : ℕ) (xs : List ℚ) (i : ℕ)
    (h1 : i < xs.length) (h2 : w ≤ i + 1) :
    ∃ v, (rollingMeanE w xs).getD i EF.nan = EF.fin v := by
  rw [rollingMeanE_getD w xs i h1, if_neg (by omega)]
  exact ⟨_, rfl⟩

/-- A full-window rolling std entry is finite. -/
theorem std_col_fin (w : ℕ) (xs : List ℚ) (i : ℕ)
    (h1 : i < xs.length) (h2 : w ≤ i + 1) :
    ∃ v, (rollingStdE w xs).getD i EF.nan = EF.fin v := by
  rw [rollingStdE_getD w xs i h1, if_neg (by omega)]
  exact ⟨_, rfl⟩

/-- A full-window rolling max entry is finite. -/
theorem max_col_fin (w : ℕ) (xs : List ℚ) (i : ℕ)
    (h1 : i < xs.length) (h2 : w ≤ i + 1) (hw : 0 < w) :
    ∃ v, (rollingMaxE w xs).getD i EF.nan = EF.fin v := by
  rw [rollingMaxE_getD w xs i h1, if_neg (by omega)]
  have hlen : ((xs.take (i + 1)).drop (i + 1 - w)).length = w := by
    simp only [List.length_drop, List.length_take]
    omega
  cases hwin : (xs.take (i + 1)).drop (i + 1 - w) with
  | nil =>
      rw [hwin] at hlen
      simp at hlen
      omega
  | cons y ys =>
      exact ⟨_, rfl⟩

/-- The RSI entry at any in-range index is finite. -/
theorem rsi_col_fin (rows : List PriceRow) (i : ℕ) (h1 : i < rows.length) :
    ∃ v, ((dailyColsOf rows).rsi).getD i EF.nan = EF.fin v := by
  have hc : (dailyColsOf rows).rsi = rsiList (rows.map PriceRow.pclose) := rfl
  rw [hc]
  have hlen : i < (rsiList (rows.map PriceRow.pclose)).length := by
    rw [rsiList_length, List.length_map]
    exact h1
  rw [List.getD_eq_getElem _ _ hlen]
  obtain ⟨q, hq, _, _⟩ := rsiList_class _ _ (List.getElem_mem hlen)
  exact ⟨q, hq⟩

/-- The Bollinger entries at a full-window index are finite. -/
theorem bb_col_fin (rows : List PriceRow) (i : ℕ)
    (h1 : i < rows.length) (h2 : 20 ≤ i + 1) :
    (∃ v, ((dailyColsOf rows).bbUpper).getD i EF.nan = EF.fin v) ∧
    (∃ v, ((dailyColsOf rows).bbLower).getD i EF.nan = EF.fin v) := by
  have hcl : (rows.map PriceRow.pclose).length = rows.length :=
    List.length_map _ _
  have hm : i < (rollingMeanE 20 (rows.map PriceRow.pclose)).length := by
    rw [rollingMeanE_length, hcl]
    exact h1
  have hs : i < ((rollingStdE 20 (rows.map PriceRow.pclose)).map
      (fun s => EF.mul s (EF.fin 2))).length := by
    rw [List.length_map, rollingStdE_length, hcl]
    exact h1
  have hs2 : i < (rollingStdE 20 (rows.map PriceRow.pclose)).length := by
    rw [rollingStdE_length, hcl]
    exact h1
  obtain ⟨u, hu⟩ := mean_col_fin 20 (rows.map PriceRow.pclose) i
    (by rw [hcl]; exact h1) h2
  obtain ⟨v, hv⟩ := std_col_fin 20 (rows.map PriceRow.pclose) i
    (by rw [hcl]; exact h1) h2
  constructor
  · have hb : (dailyColsOf rows).bbUpper =
        List.zipWith EF.add (rollingMeanE 20 (rows.map PriceRow.pclose))
          ((rollingStdE 20 (rows.map PriceRow.pclose)).map
            (fun s => EF.mul s (EF.fin 2))) := rfl
    rw [hb, getD_zipWith _ _ _ i hm hs EF.nan EF.nan EF.nan,
      getD_map _ _ i hs2 EF.nan EF.nan, hu, hv]
    exact ⟨_, rfl⟩
  · have hb : (dailyColsOf rows).bbLower =
        List.zipWith EF.sub (rollingMeanE 20 (rows.map PriceRow.pclose))
          ((rollingStdE 20 (rows.map PriceRow.pclose)).map
            (fun s => EF.mul s (EF.fin 2))) := rfl
    rw [hb, getD_zipWith _ _ _ i hm hs EF.nan EF.nan EF.nan,
      getD_map _ _ i hs2 EF.nan EF.nan, hu, hv]
    exact ⟨_, rfl⟩

/-- Pointwise form of the enriched daily frame. -/
theorem buildDaily_getD (rows : List PriceRow) (i : ℕ) (h : i < rows.length) :
    (buildDaily rows).getD i dummyDRowE =
      { date := (rows.getD i defaultPriceRow).date
        popen := (rows.getD i defaultPriceRow).popen
        phigh := (rows.getD i defaultPriceRow).phigh
        plow := (rows.getD i defaultPriceRow).plow
        pclose := (rows.getD i defaultPriceRow).pclose
        pvol := (rows.getD i defaultPriceRow).pvol
        sma200 := (dailyColsOf rows).sma200.getD i EF.nan
        sma50 := (dailyColsOf rows).sma50.getD i EF.nan
        sma20 := (dailyColsOf rows).sma20.getD i EF.nan
        bbUpper := (dailyColsOf rows).bbUpper.getD i EF.nan
        bbLower := (dailyColsOf rows).bbLower.getD i EF.nan
        rsi := (dailyColsOf rows).rsi.getD i EF.nan
        volumeMa20 := (dailyColsOf rows).volumeMa20.getD i EF.nan
        high60d := (dailyColsOf rows).high60d.getD i EF.nan
        macd := (dailyColsOf rows).macd.getD i 0
        macdSignal := (dailyColsOf rows).macdSignal.getD i 0 } := by
  unfold buildDaily
  exact getD_range_map _ _ _ h _

/-- Any row at index ≥ 199 of the enriched frame survives the `dropna`. -/
theorem buildDaily_lastRows_mem (rows : List PriceRow) (i : ℕ)
    (h199 : 199 ≤ i) (h : i < rows.length) :
    (buildDaily rows).getD i dummyDRowE ∈ calcDaily rows := by
  have hbl : i < (buildDaily rows).length := by
    unfold buildDaily
    simpa using h
  have hmemb : (buildDaily rows).getD i dummyDRowE ∈ buildDaily rows := by
    rw [List.getD_eq_getElem _ _ hbl]
    exact List.getElem_mem hbl
  refine List.mem_filter.mpr ⟨hmemb, ?_⟩
  rw [buildDaily_getD rows i h]
  have hcl : (rows.map PriceRow.pclose).length = rows.length :=
    List.length_map _ _
  have hvl : (rows.map PriceRow.pvol).length = rows.length :=
    List.length_map _ _
  have hhl : (rows.map PriceRow.phigh).length = rows.length :=
    List.length_map _ _
  obtain ⟨v1, e1⟩ := mean_col_fin 200 (rows.map PriceRow.pclose) i
    (by rw [hcl]; exact h) (by omega)
  obtain ⟨v2, e2⟩ := mean_col_fin 50 (rows.map PriceRow.pclose) i
    (by rw [hcl]; exact h) (by omega)
  obtain ⟨v3, e3⟩ := mean_col_fin 20 (rows.map PriceRow.pclose) i
    (by rw [hcl]; exact h) (by omega)
  obtain ⟨⟨v4, e4⟩, ⟨v5, e5⟩⟩ := bb_col_fin rows i h (by omega)
  obtain ⟨v6, e6⟩ := rsi_col_fin rows i h
  obtain ⟨v7, e7⟩ := mean_col_fin 20 (rows.map PriceRow.pvol) i
    (by rw [hvl]; exact h) (by omega)
  obtain ⟨v8, e8⟩ := max_col_fin 60 (rows.map PriceRow.phigh) i
    (by rw [hhl]; exact h) (by omega) (by omega)
  have hs200 : (dailyColsOf rows).sma200
      = rollingMeanE 200 (rows.map PriceRow.pclose) := rfl
  have hs50 : (dailyColsOf rows).sma50
      = rollingMeanE 50 (rows.map PriceRow.pclose) := rfl
  have hs20 : (dailyColsOf rows).sma20
      = rollingMeanE 20 (rows.map PriceRow.pclose) := rfl
  have hvma : (dailyColsOf rows).volumeMa20
      = rollingMeanE 20 (rows.map PriceRow.pvol) := rfl
  have hh60 : (dailyColsOf rows).high60d
      = rollingMaxE 60 (rows.map PriceRow.phigh) := rfl
  simp only [dRowHasNan, hs200, hs50, hs20, hvma, hh60, e1, e2, e3, e4, e5,
    e6, e7, e8]
  rfl

/-- Two hundred consecutive constant bars (dates 0–199, spanning 29
calendar weeks). -/
def rowsBig : List PriceRow := (List.range 200).map fun i => ⟨i, 1, 1, 1, 1, 1⟩

set_option maxRecDepth 40000 in
/-- Witness for C4 at a concrete input with 200 daily bars and 29 weekly
rows. -/
theorem rsi_bounded_witness :
    ∃ q : ℚ, ((buildDaily rowsBig).getD 199 dummyDRowE).rsi = EF.fin q ∧
      0 ≤ q ∧ q ≤ 100 :=
  rsi_bounded rowsBig (by decide) (by decide) _
    (buildDaily_lastRows_mem rowsBig 199 (by omega) (by decide))

/-! ## The regression engine: `run_regression` (`kaiki_app.py`, lines 114–152)

The engine receives an uploaded table whose cells may be numeric, missing
(NaN) or non-numeric text.  Standardised coefficients and the per-feature
correlation column of the result table involve square roots of variances
(irrational in general); they are presentation-only fields that no logic
reads, and the success outcome modelled here carries the fields the
contract names: coefficients, intercept, MSE and R². -/

/-- One cell of an uploaded table. -/
inductive Cell where
  | num (q : ℚ)
  | missing
  | text (s : String)
  deriving DecidableEq, Repr

/-- A tabular dataset: named columns. -/
structure DataTable where
  cols : List (String × List Cell)
  deriving DecidableEq, Repr

/-- Python exception kinds that the body of `run_regression` can raise. -/
inductive RegErr where
  | keyError (col : String)
  | typeError (col : String)
  | valueError
  deriving DecidableEq, Repr

/-- Human-readable rendering of a caught exception (the `{e}` part of the
formatted message). -/
def describeErr : RegErr → String
  | .keyError c => "KeyError: " ++ c
  | .typeError c => "TypeError: could not compute the mean of column " ++ c
  | .valueError => "ValueError: input contains NaN or has an invalid shape"

/-- Column selection `df[name]`: a missing label raises `KeyError`. -/
def lookupCol (df : DataTable) (name : String) : Except RegErr (List Cell) :=
  match df.cols.find? (fun c => c.1 == name) with
  | some c => .ok c.2
  | none => .error (.keyError name)

/-- Pandas `Series.mean()`: raises `TypeError` on a column holding text,
skips missing entries, and yields NaN (`none`) on an all-missing column. -/
def colMean (name : String) (cells : List Cell) : Except RegErr (Option ℚ) :=
  if cells.any (fun c => match c with | .text _ => true | _ => false) then
    .error (.typeError name)
  else
    let nums := cells.filterMap (fun c => match c with | .num q => some q | _ => none)
    if nums.length = 0 then .ok none
    else .ok (some (nums.sum / (nums.length : ℚ)))

/-- `fillna(mean)`: missing entries become the column mean when the mean
is defined (an all-missing column keeps its NaNs). -/
def fillnaMean (cells : List Cell) (m : Option ℚ) : List Cell :=
  cells.map (fun c =>
    match c, m with
    | .missing, some q => .num q
    | c, _ => c)

/-- Extraction of a clean numeric column; `fit` raises `ValueError` when
a NaN survives imputation. -/
def toNumeric (cells : List Cell) : Except RegErr (List ℚ) :=
  cells.mapM (fun c =>
    match c with
    | .num q => Except.ok q
    | _ => Except.error RegErr.valueError)

/-- Selection, mean imputation (line 118/119). -/
def cleanColumn (df : DataTable) (name : String) : Except RegErr (List Cell) := do
  let cells ← lookupCol df name
  let m ← colMean name cells
  pure (fillnaMean cells m)

/-- Dot product. -/
def dot (u v : List ℚ) : ℚ := (List.zipWith (fun a b => a * b) u v).sum

/-- Arithmetic mean of a numeric column. -/
def meanQ (u : List ℚ) : ℚ := u.sum / (u.length : ℚ)

/-- Column centred at its mean. -/
def centered (u : List ℚ) : List ℚ := u.map (fun x => x - meanQ u)

/-- Subtract a multiple of the (normalised) pivot row so that column `c`
becomes zero. -/
def elimWith (nr : List ℚ) (c : ℕ) (row : List ℚ) : List ℚ :=
  List.zipWith (fun x y => x - y) row (nr.map (fun y => y * row.getD c 0))

/-- Find and remove the first row with a non-zero entry in column `c`. -/
def extractPivotRow : List (List ℚ) → ℕ → Option (List ℚ × List (List ℚ))
  | [], _ => none
  | r :: rs, c =>
      if r.getD c 0 ≠ 0 then some (r, rs)
      else
        match extractPivotRow rs c with
        | some (p, rest) => some (p, r :: rest)
        | none => none

/-- State of the Gauss–Jordan sweep: finished pivot rows and the rows
still unprocessed. -/
structure GJState where
  pivots : List (ℕ × List ℚ)
  rest : List (List ℚ)

/-- One Gauss–Jordan column step. -/
def gjStep (st : GJState) (c : ℕ) : GJState :=
  match extractPivotRow st.rest c with
  | none => st
  | some (r, others) =>
      let nr := r.map (fun x => x / r.getD c 0)
      { pivots := st.pivots.map (fun p => (p.1, elimWith nr c p.2)) ++ [(c, nr)]
        rest := others.map (elimWith nr c) }

/-- Gauss–Jordan solution of an augmented `p × (p+1)` system.  The normal
equations are always consistent; on a rank-deficient system the free
variables are set to 0 (scipy's `lstsq`, used by sklearn, also succeeds
there with the minimum-norm least-squares solution — the two can differ
only in which least-squares solution is picked, which nothing reads). -/
def solveAug (p : ℕ) (aug : List (List ℚ)) : List ℚ :=
  let final := (List.range p).foldl gjStep ⟨[], aug⟩
  (List.range p).map (fun c =>
    match final.pivots.find? (fun pr => pr.1 == c) with
    | some pr => pr.2.getD p 0
    | none => 0)

/-- Ordinary least squares with intercept (`LinearRegression.fit`, line
122/123): centre the columns, solve the normal equations of the centred
system, and recover the intercept from the means. -/
def olsFit (xcols : List (List ℚ)) (y : List ℚ) : List ℚ × ℚ :=
  let xc := xcols.map centered
  let yc := centered y
  let aug := xc.map (fun ui => (xc.map (fun uj => dot ui uj)) ++ [dot ui yc])
  let beta := solveAug xcols.length aug
  let intercept :=
    meanQ y - (List.zipWith (fun b u => b * meanQ u) beta xcols).sum
  (beta, intercept)

/-- Mean squared error (`mean_squared_error`, line 127). -/
def mseOf (y yPred : List ℚ) : ℚ :=
  ((List.zipWith (fun a b => (a - b) ^ 2) y yPred).sum) / (y.length : ℚ)

/-- `r2_score` (line 128) with sklearn's `force_finite` behaviour: a
constant target yields 1 on a perfect fit and 0 otherwise. -/
def r2Of (y yPred : List ℚ) : ℚ :=
  let ssRes := (List.zipWith (fun a b => (a - b) ^ 2) y yPred).sum
  let ssTot := (y.map (fun a => (a - meanQ y) ^ 2)).sum
  if ssTot = 0 then (if ssRes = 0 then 1 else 0) else 1 - ssRes / ssTot

/-- The success payload of the engine (line 146–150). -/
structure RegSuccess where
  coef : List ℚ
  intercept : ℚ
  mse : ℚ
  r2 : ℚ
  yUsed : List ℚ
  yPred : List ℚ
  deriving DecidableEq, Repr

/-- The body of the `try` block (lines 117–150). -/
def regressionBody (df : DataTable) (target : String)
    (features : List String) : Except RegErr RegSuccess := do
  let xFilled ← features.mapM (cleanColumn df)
  let yFilled ← cleanColumn df target
  let xcols ← xFilled.mapM toNumeric
  let y ← toNumeric yFilled
  if y.length = 0 ∨ features.length = 0
      ∨ xcols.any (fun u => u.length ≠ y.length) then
    throw .valueError
  else
    let fit := olsFit xcols y
    let yPred := (List.range y.length).map (fun k =>
      fit.2 + (List.zipWith (fun b u => b * u.getD k 0) fit.1 xcols).sum)
    pure { coef := fit.1, intercept := fit.2,
           mse := mseOf y yPred, r2 := r2Of y yPred,
           yUsed := y, yPred := yPred }

/-- The dictionary returned by `run_regression`: a success record or an
error record carrying a message. -/
inductive RegResult where
  | success (res : RegSuccess)
  | error (message : String)
  deriving DecidableEq, Repr

/-- Model of `run_regression` (lines 114–152): the whole body runs inside
`try`; any raised exception is caught at line 151 and becomes the error
outcome with the formatted message of line 152. -/
def run_regression (df : DataTable) (target : String)
    (features : List String) : RegResult :=
  match regressionBody df target features with
  | .ok res => .success res
  | .error e => .error ("分析中にエラーが発生しました: " ++ describeErr e)

/-- The mean squared error is a mean of squares, hence non-negative. -/
theorem mseOf_nonneg (y yPred : List ℚ) : 0 ≤ mseOf y yPred := by
  unfold mseOf
  apply div_nonneg
  · apply List.sum_nonneg
    intro x hx
    obtain ⟨a, _, b, _, rfl⟩ := mem_zipWith_elim _ _ _ x hx
    positivity
  · exact Nat.cast_nonneg _

/-- Inversion: a successful body always carries a non-negative MSE. -/
theorem regressionBody_ok_mse {df : DataTable} {target : String}
    {features : List String} {res : RegSuccess}
    (h : regressionBody df target features = .ok res) : 0 ≤ res.mse := by
  unfold regressionBody at h
  cases h1 : features.mapM (cleanColumn df) with
  | error e => rw [h1] at h; simp [Bind.bind, Except.bind] at h
  | ok xFilled =>
    rw [h1] at h
    simp only [Bind.bind, Except.bind] at h
    cases h2 : cleanColumn df target with
    | error e => rw [h2] at h; simp at h
    | ok yFilled =>
      rw [h2] at h
      simp only [Except.bind] at h
      cases h3 : xFilled.mapM toNumeric with
      | error e => rw [h3] at h; simp at h
      | ok xcols =>
        rw [h3] at h
        simp only [Except.bind] at h
        cases h4 : toNumeric yFilled with
        | error e => rw [h4] at h; simp at h
        | ok y =>
          rw [h4] at h
          simp only [Except.bind] at h
          split at h
          · simp only [throw, throwThe, MonadExceptOf.throw] at h
            exact absurd h (by simp)
          · simp only [pure, Except.pure, Except.ok.injEq] at h
            subst h
            exact mseOf_nonneg _ _

/-- C8 — every call of the regression engine lands in exactly one of two
structured outcomes: an error record whose non-empty message is the fixed
Japanese prefix followed by the exception text, or a success record
carrying coefficients, intercept, a non-negative MSE and an R²; no
exception escapes the engine (the match over `regressionBody` is total). -/
theorem run_regression_outcome (df : DataTable) (target : String)
    (features : List String) :
    (∃ e, run_regression df target features
        = RegResult.error ("分析中にエラーが発生しました: " ++ describeErr e) ∧
        ("分析中にエラーが発生しました: " ++ describeErr e) ≠ "") ∨
    (∃ res, run_regression df target features = RegResult.success res ∧
        0 ≤ res.mse) := by
  unfold run_regression
  cases hb : regressionBody df target features with
  | error e =>
      left
      refine ⟨e, rfl, ?_⟩
      intro hc
      have h2 := congrArg String.length hc
      rw [String.length_append] at h2
      have h3 : 0 < ("分析中にエラーが発生しました: " : String).length := by decide
      simp at h2
      omega
  | ok res =>
      right
      exact ⟨res, rfl, regressionBody_ok_mse hb⟩
